import Mathlib

/-!
Verification development for the ddosia-tracker ingestion pipeline.

The Python sources `src/processor.py` (ingestor) and `src/downloader.py`
(fetcher) are shallowly embedded below.  Strings are modelled through their
character lists (Python `str` operations are re-implemented on `List Char`
for the ASCII fragment the pipeline manipulates), JSON values through an
inductive data type `J` (the result of `json.load`; a file whose bytes do
not parse is modelled by `none`), the relational store through explicit
record lists, and Python exceptions through `Except`/outcome values.  File
bytes are abstracted by their observable fingerprint (`hash`, `size`)
together with their parse result: two files with the same bytes have the
same `Content` value.
-/

namespace Ddosia

/-! ## Definitions: string helpers, timestamp parsing, JSON values,
record construction, the relational store, `process_file`, the polling cycle,
and the fetcher -/

/-- Lowercase one character, as Python `str.lower` acts on ASCII input. -/
def lowerChar (c : Char) : Char := Char.toLower c

/-- Lowercase a character list (`str.lower` on the ASCII fragment). -/
def lowerList (cs : List Char) : List Char := cs.map lowerChar

/-- Python whitespace characters stripped by `str.strip` (ASCII fragment). -/
def isSpaceChar (c : Char) : Bool :=
  c = ' ' || c = '\t' || c = '\n' || c = '\x0d' || c = '\x0b' || c = '\x0c'

/-- Strip leading and trailing whitespace from a character list (`str.strip`). -/
def stripList (cs : List Char) : List Char :=
  ((cs.dropWhile isSpaceChar).reverse.dropWhile isSpaceChar).reverse

/-- Boolean list-prefix test, used to implement `startswith`/`endswith`. -/
def listPrefixOf : List Char → List Char → Bool
  | [], _ => true
  | _ :: _, [] => false
  | a :: as, b :: bs => a = b && listPrefixOf as bs

/-- Python `s.startswith(p)` on character lists. -/
def startsWithL (cs p : List Char) : Bool := listPrefixOf p cs

/-- Python `s.endswith(p)` on character lists. -/
def endsWithL (cs p : List Char) : Bool := listPrefixOf p.reverse cs.reverse

/-- Python `s.startswith(p)` on strings. -/
def startsWithS (s p : String) : Bool := startsWithL s.data p.data

/-- Python `s.endswith(p)` on strings. -/
def endsWithS (s p : String) : Bool := endsWithL s.data p.data

/-- Python `s.lower()` on strings (ASCII fragment). -/
def lowerS (s : String) : String := ⟨lowerList s.data⟩

/-- Python `s.strip()` on strings (ASCII fragment). -/
def stripS (s : String) : String := ⟨stripList s.data⟩

/-- Lexicographic code-point comparison, Python string `<=` used by `sorted`. -/
def charListLe : List Char → List Char → Bool
  | [], _ => true
  | _ :: _, [] => false
  | a :: as, b :: bs =>
    if a = b then charListLe as bs else decide (a.toNat < b.toNat)

/-- Python string comparison on `String`. -/
def strLe (a b : String) : Bool := charListLe a.data b.data

/-- A wall-clock timestamp as produced by `datetime.strptime`; the code always
attaches UTC (`dt.replace(tzinfo=timezone.utc)`), so the six fields determine
the instant. -/
structure DateTime where
  year : Nat
  month : Nat
  day : Nat
  hour : Nat
  minute : Nat
  second : Nat
deriving DecidableEq

/-- Gregorian leap-year rule used by Python `datetime` validation. -/
def isLeapYear (y : Nat) : Bool :=
  (y % 4 == 0 && y % 100 != 0) || (y % 400 == 0)

/-- Days in a month, as validated by the `datetime` constructor. -/
def daysInMonth (y m : Nat) : Nat :=
  if m == 2 then (if isLeapYear y then 29 else 28)
  else if m == 4 || m == 6 || m == 9 || m == 11 then 30
  else 31

/-- The combined `_strptime` field-range and `datetime` constructor checks: a
six-field timestamp is accepted exactly under these bounds (seconds 60-61 pass
the `%S` pattern but are rejected by the constructor, so the net bound is 59). -/
def validDateTime (dt : DateTime) : Bool :=
  decide (1 ≤ dt.year) && decide (dt.year ≤ 9999) &&
  decide (1 ≤ dt.month) && decide (dt.month ≤ 12) &&
  decide (1 ≤ dt.day) && decide (dt.day ≤ daysInMonth dt.year dt.month) &&
  decide (dt.hour ≤ 23) && decide (dt.minute ≤ 59) && decide (dt.second ≤ 59)

/-- Decimal digit test (`\d` in the TS_RE regex), on code points. -/
def isDigitChar (c : Char) : Bool := decide (48 ≤ c.toNat) && decide (c.toNat ≤ 57)

/-- Numeric value of a digit character. -/
def digitVal (c : Char) : Nat := c.toNat - 48

/-- The digit character for a value below ten. -/
def digitChar (n : Nat) : Char := Char.ofNat (48 + n)

/-- Read a two-digit group. -/
def read2 (a b : Char) : Nat := 10 * digitVal a + digitVal b

/-- Read a four-digit group. -/
def read4 (a b c d : Char) : Nat :=
  1000 * digitVal a + 100 * digitVal b + 10 * digitVal c + digitVal d

/-- Render a value below 100 as a zero-padded two-digit group. -/
def render2 (n : Nat) : List Char := [digitChar (n / 10), digitChar (n % 10)]

/-- Render a value below 10000 as a zero-padded four-digit group. -/
def render4 (n : Nat) : List Char :=
  [digitChar (n / 1000), digitChar (n / 100 % 10), digitChar (n / 10 % 10), digitChar (n % 10)]

/-- First alternative of TS_RE: the 19-character shape `DD-MM-YYYY_HH-MM-SS`. -/
def shapeDMY : List Char → Bool
  | [a1, a2, s1, b1, b2, s2, c1, c2, c3, c4, u1, d1, d2, s3, e1, e2, s4, f1, f2] =>
    isDigitChar a1 && isDigitChar a2 && s1 == '-' &&
    isDigitChar b1 && isDigitChar b2 && s2 == '-' &&
    isDigitChar c1 && isDigitChar c2 && isDigitChar c3 && isDigitChar c4 &&
    u1 == '_' &&
    isDigitChar d1 && isDigitChar d2 && s3 == '-' &&
    isDigitChar e1 && isDigitChar e2 && s4 == '-' &&
    isDigitChar f1 && isDigitChar f2
  | _ => false

/-- Second alternative of TS_RE: the 19-character shape `YYYY-MM-DD_HH-MM-SS`. -/
def shapeYMD : List Char → Bool
  | [c1, c2, c3, c4, s1, b1, b2, s2, a1, a2, u1, d1, d2, s3, e1, e2, s4, f1, f2] =>
    isDigitChar c1 && isDigitChar c2 && isDigitChar c3 && isDigitChar c4 && s1 == '-' &&
    isDigitChar b1 && isDigitChar b2 && s2 == '-' &&
    isDigitChar a1 && isDigitChar a2 &&
    u1 == '_' &&
    isDigitChar d1 && isDigitChar d2 && s3 == '-' &&
    isDigitChar e1 && isDigitChar e2 && s4 == '-' &&
    isDigitChar f1 && isDigitChar f2
  | _ => false

/-- `TS_RE.match(name)`: both regex alternatives are anchored at the start and
are exactly 19 characters long, so a match returns the 19-character head when
it fits either shape. -/
def tsToken (s : String) : Option (List Char) :=
  if shapeDMY (s.data.take 19) || shapeYMD (s.data.take 19) then some (s.data.take 19)
  else none

/-- `datetime.strptime(ts, "%d-%m-%Y_%H-%M-%S")` restricted to regex-extracted
tokens, returning `none` for the `ValueError` path.  The `_strptime` field
patterns demand the `DD-MM-YYYY` layout, and the field bounds combined with
the `datetime` constructor amount to `validDateTime`. -/
def strptimeDMY : List Char → Option DateTime
  | [a1, a2, s1, b1, b2, s2, c1, c2, c3, c4, u1, d1, d2, s3, e1, e2, s4, f1, f2] =>
    if isDigitChar a1 && isDigitChar a2 && s1 == '-' &&
       isDigitChar b1 && isDigitChar b2 && s2 == '-' &&
       isDigitChar c1 && isDigitChar c2 && isDigitChar c3 && isDigitChar c4 &&
       u1 == '_' &&
       isDigitChar d1 && isDigitChar d2 && s3 == '-' &&
       isDigitChar e1 && isDigitChar e2 && s4 == '-' &&
       isDigitChar f1 && isDigitChar f2 then
      let dt : DateTime :=
        ⟨read4 c1 c2 c3 c4, read2 b1 b2, read2 a1 a2, read2 d1 d2, read2 e1 e2, read2 f1 f2⟩
      if validDateTime dt then some dt else none
    else none
  | _ => none

/-- `datetime.strptime(ts, "%Y-%m-%d_%H-%M-%S")` restricted to regex-extracted
tokens, returning `none` for the `ValueError` path. -/
def strptimeYMD : List Char → Option DateTime
  | [c1, c2, c3, c4, s1, b1, b2, s2, a1, a2, u1, d1, d2, s3, e1, e2, s4, f1, f2] =>
    if isDigitChar c1 && isDigitChar c2 && isDigitChar c3 && isDigitChar c4 && s1 == '-' &&
       isDigitChar b1 && isDigitChar b2 && s2 == '-' &&
       isDigitChar a1 && isDigitChar a2 &&
       u1 == '_' &&
       isDigitChar d1 && isDigitChar d2 && s3 == '-' &&
       isDigitChar e1 && isDigitChar e2 && s4 == '-' &&
       isDigitChar f1 && isDigitChar f2 then
      let dt : DateTime :=
        ⟨read4 c1 c2 c3 c4, read2 b1 b2, read2 a1 a2, read2 d1 d2, read2 e1 e2, read2 f1 f2⟩
      if validDateTime dt then some dt else none
    else none
  | _ => none

/-- processor.py lines 25-37: match TS_RE at the start of the filename, then
try the `%d-%m-%Y_%H-%M-%S` format first and `%Y-%m-%d_%H-%M-%S` second; any
failure yields `None` rather than an error. -/
def parse_timestamp_from_filename (s : String) : Option DateTime :=
  match tsToken s with
  | none => none
  | some cs =>
    match strptimeDMY cs with
    | some dt => some dt
    | none => strptimeYMD cs

/-- The canonical 19-character rendering of a timestamp in `DD-MM-YYYY_HH-MM-SS`. -/
def renderDMY (dt : DateTime) : List Char :=
  render2 dt.day ++ '-' :: render2 dt.month ++ '-' :: render4 dt.year ++
    '_' :: render2 dt.hour ++ '-' :: render2 dt.minute ++ '-' :: render2 dt.second

/-- The canonical 19-character rendering of a timestamp in `YYYY-MM-DD_HH-MM-SS`. -/
def renderYMD (dt : DateTime) : List Char :=
  render4 dt.year ++ '-' :: render2 dt.month ++ '-' :: render2 dt.day ++
    '_' :: render2 dt.hour ++ '-' :: render2 dt.minute ++ '-' :: render2 dt.second

/-- A parsed JSON value.  Numbers are modelled by integers (the snapshot
fields used by the pipeline are integral); `null` loads as Python `None`. -/
inductive J where
  | null
  | bool (b : Bool)
  | num (n : Int)
  | str (s : String)
  | arr (elems : List J)
  | obj (fields : List (String × J))

/-- Python truthiness of a loaded JSON value (`bool(x)`). -/
def J.truthy : J → Bool
  | .null => false
  | .bool b => b
  | .num n => n != 0
  | .str s => !s.isEmpty
  | .arr xs => !xs.isEmpty
  | .obj kvs => !kvs.isEmpty

/-- Raw key lookup in a loaded JSON object; `json.load` keeps the last
occurrence of a duplicated key. -/
def lookupKey (fields : List (String × J)) (key : String) : Option J :=
  (fields.reverse.find? (fun kv => kv.1 == key)).map (fun kv => kv.2)

/-- Python `d.get(key)` on a loaded object: an absent key and a JSON `null`
value both come back as Python `None`. -/
def pyGet (fields : List (String × J)) (key : String) : Option J :=
  match lookupKey fields key with
  | none => none
  | some .null => none
  | some v => some v

/-- processor.py lines 47-61, on string input: falsy (empty) input gives
`None`; otherwise strip, lowercase, drop one leading `www.`, and map an empty
result to `None`. -/
def normalize_hostname (hostname : String) : Option String :=
  if hostname = "" then none
  else
    let normalized := lowerS (stripS hostname)
    if normalized = "" then none
    else
      let normalized2 :=
        if startsWithS normalized "www." then ⟨normalized.data.drop 4⟩ else normalized
      if normalized2 = "" then none else some normalized2

/-- The normalization pipeline as the spec words it: strip surrounding
whitespace, lowercase, remove a leading `www.`, and treat an empty result as
no usable host. -/
def specNormalize (hostname : String) : Option String :=
  let t := lowerS (stripS hostname)
  let u := if startsWithS t "www." then ⟨t.data.drop 4⟩ else t
  if u = "" then none else some u

/-- The dynamic call `normalize_hostname(t.get("host"))`: a Python-falsy
argument returns `None` through the first guard, a truthy string goes through
the string pipeline, and any other truthy value raises `AttributeError` at
`.strip()` (modelled as `Except.error`). -/
def normalizeHostVal : Option J → Except Unit (Option String)
  | none => .ok none
  | some v =>
    if v.truthy then
      match v with
      | .str s => .ok (normalize_hostname s)
      | _ => .error ()
    else .ok none

/-- A value bound into an SQL insert by psycopg2: Python `None` becomes NULL,
booleans stay booleans, and any other loaded value is passed through (the
`body`/`headers` columns additionally wrap it as a JSON document, which does
not change the stored payload). -/
inductive DBVal where
  | null
  | int (n : Int)
  | str (s : String)
  | bool (b : Bool)
  | json (j : J)

/-- Bind an optional loaded value (`r.get(k)`) as a column value. -/
def dbOfOpt : Option J → DBVal
  | none => .null
  | some v => .json v

/-- Bind `bool(r.get(k)) if r.get(k) is not None else None`. -/
def dbOfOptBool : Option J → DBVal
  | none => .null
  | some v => .bool v.truthy

/-- Bind `ip if ip else None`: a falsy ip value is stored as NULL. -/
def ipField : Option J → DBVal
  | none => .null
  | some v => if v.truthy then .json v else .null

/-- processor.py lines 122-132: build the 8-tuple for one entry of `randoms`;
`r.get(...)` on a non-object entry raises `AttributeError`. -/
def buildRandomRecord (fid : Nat) : J → Except Unit (List DBVal)
  | .obj fields =>
    .ok [ .int fid,
          dbOfOpt (pyGet fields "name"),
          dbOfOpt (pyGet fields "id"),
          dbOfOptBool (pyGet fields "digit"),
          dbOfOptBool (pyGet fields "upper"),
          dbOfOptBool (pyGet fields "lower"),
          dbOfOpt (pyGet fields "min"),
          dbOfOpt (pyGet fields "max") ]
  | _ => .error ()

/-- processor.py lines 165-181: the 13-tuple built for a target entry that
survived the host filter, with `normalized` its normalized host. -/
def mkTargetRecord (fid : Nat) (fields : List (String × J)) (normalized : String) :
    List DBVal :=
  [ .int fid,
    dbOfOpt (pyGet fields "target_id"),
    dbOfOpt (pyGet fields "request_id"),
    dbOfOpt (pyGet fields "host"),
    .str normalized,
    ipField (pyGet fields "ip"),
    dbOfOpt (pyGet fields "type"),
    dbOfOpt (pyGet fields "method"),
    dbOfOpt (pyGet fields "port"),
    dbOfOptBool (pyGet fields "use_ssl"),
    dbOfOpt (pyGet fields "path"),
    dbOfOpt (pyGet fields "body"),
    dbOfOpt (pyGet fields "headers") ]

/-- processor.py lines 67-72 (`_validate_records`): keep the records that are
sequences of the expected arity; the rest are dropped with a count-and-example
log line. -/
def validate_records (records : List (List DBVal)) (expected : Nat) : List (List DBVal) :=
  records.filter (fun r => r.length == expected)

/-- processor.py lines 144-181: walk the `targets` array carrying the set of
normalized hosts already seen in this file; drop entries with no usable host,
count entries whose normalized host was already seen, keep the first
occurrence of each host.  A non-object entry raises at `t.get("host")`, which
aborts the walk. -/
def extractTargets (fid : Nat) (seen : List String) :
    List J → Except Unit (List (List DBVal) × Nat)
  | [] => .ok ([], 0)
  | t :: rest =>
    match t with
    | .obj fields =>
      match normalizeHostVal (pyGet fields "host") with
      | .error _ => .error ()
      | .ok none => extractTargets fid seen rest
      | .ok (some normalized) =>
        if seen.contains normalized then
          match extractTargets fid seen rest with
          | .error _ => .error ()
          | .ok (recs, dups) => .ok (recs, dups + 1)
        else
          match extractTargets fid (normalized :: seen) rest with
          | .error _ => .error ()
          | .ok (recs, dups) => .ok (mkTargetRecord fid fields normalized :: recs, dups)
    | _ => .error ()

/-- The observable content of a staged file: its fingerprint (the sha256 hex
digest and `st_size` of the bytes) and the result of `json.load` on it
(`none` when the bytes are not valid JSON).  Two files with the same bytes
have the same `Content`. -/
structure Content where
  hash : String
  size : Nat
  parsed : Option J

/-- A file sitting in one of the staging directories. -/
structure StagedFile where
  name : String
  content : Content

/-- One row of the `files` table.  `processed_at` stores the `NOW()` value of
the transaction that wrote it, modelled by a supplied clock value. -/
structure FileRow where
  id : Nat
  filename : String
  fetched_at : Option DateTime
  sha256 : String
  size_bytes : Nat
  processed_at : Nat
deriving DecidableEq

/-- The relational store: the `files` table plus the `targets` and `randoms`
child tables, whose rows are the bound insert tuples (file id first).
`nextId` models the `files` id sequence. -/
structure DB where
  files : List FileRow
  targets : List (List DBVal)
  randoms : List (List DBVal)
  nextId : Nat

/-- `COALESCE(files.fetched_at, EXCLUDED.fetched_at)`: keep a non-null stored
value, otherwise take the incoming one. -/
def coalesce (stored incoming : Option DateTime) : Option DateTime :=
  match stored with
  | some t => some t
  | none => incoming

/-- The `DO UPDATE` arm of the files upsert: refresh `sha256`, `size_bytes`
and `processed_at`, keep a non-null stored `fetched_at`
(`COALESCE(files.fetched_at, EXCLUDED.fetched_at)`); rows under any other
filename are untouched. -/
def updFile (filename : String) (ts : Option DateTime) (sha : String) (size : Nat)
    (now : Nat) (r : FileRow) : FileRow :=
  if r.filename == filename then
    { r with
      sha256 := sha,
      size_bytes := size,
      fetched_at := coalesce r.fetched_at ts,
      processed_at := now }
  else r

/-- processor.py lines 83-94: `INSERT ... ON CONFLICT (filename) DO UPDATE`
— refresh `sha256`, `size_bytes` and `processed_at`, keep a non-null stored
`fetched_at`, and return the row id.  Result: the new `files` list, the next
id value, the row id. -/
def upsertFile (files : List FileRow) (nextId : Nat) (filename : String)
    (ts : Option DateTime) (sha : String) (size : Nat) (now : Nat) :
    List FileRow × Nat × Nat :=
  match files.find? (fun r => r.filename == filename) with
  | some row =>
    (files.map (updFile filename ts sha size now), nextId, row.id)
  | none =>
    (files ++ [{ id := nextId, filename := filename, fetched_at := ts,
                 sha256 := sha, size_bytes := size, processed_at := now }],
     nextId + 1, nextId)

/-- `SELECT ... FROM files WHERE id = %s` inside the open transaction. -/
def findFileById (files : List FileRow) (fid : Nat) : Option FileRow :=
  files.find? (fun r => r.id == fid)

/-- Does a bound tuple carry the given file id in its first column? -/
def dbvalIsFileId (v : DBVal) (fid : Nat) : Bool :=
  match v with
  | .int n => n == (fid : Int)
  | _ => false

/-- `SELECT 1 FROM targets WHERE file_id = %s LIMIT 1`. -/
def hasTargetChildB (db : DB) (fid : Nat) : Bool :=
  db.targets.any (fun r => dbvalIsFileId (r.headD .null) fid)

/-- The row lookup of the `files` table by filename. -/
def filesRowOf (db : DB) (filename : String) : Option FileRow :=
  db.files.find? (fun r => r.filename == filename)

/-- The id of the `files` row stored for a filename, when present. -/
def fileIdOf (db : DB) (filename : String) : Option Nat :=
  (filesRowOf db filename).map (fun r => r.id)

/-- Outcome of one `process_file` call: committed normally, took the
short-circuit skip, returned after a JSON parse failure, or raised an
exception to the caller. -/
inductive Outcome where
  | ok
  | skipped
  | parseFail
  | raised
deriving DecidableEq

/-- Result of `process_file`: `committed` is the state the store has durably
committed, `working` the state of the still-open connection transaction (the
connection context manager commits it when the polling cycle ends). -/
structure PFRes where
  committed : DB
  working : DB
  outcome : Outcome

/-- Lines 77-94: compute the filename timestamp and fingerprint, run the
files-table upsert in the open transaction.  Returns the transaction state
and the returned file id. -/
def upsertStage (working : DB) (f : StagedFile) (now : Nat) : DB × Nat :=
  let ts := parse_timestamp_from_filename f.name
  let res := upsertFile working.files working.nextId f.name ts f.content.hash f.content.size now
  ({ working with files := res.1, nextId := res.2.1 }, res.2.2)

/-- Lines 96-101: re-select the row just upserted and compare its hash/size
with the freshly computed ones, then probe for a child target row.  The
re-select happens after the upsert in the same transaction, so it sees the
freshly written values. -/
def shortCircuitB (w1 : DB) (fid : Nat) (sha : String) (size : Nat) : Bool :=
  match findFileById w1.files fid with
  | some row => (row.sha256 == sha && row.size_bytes == size) && hasTargetChildB w1 fid
  | none => false

/-- Lines 114-115, lookup part: `data.get("targets"/"randoms", [])`.  A
non-object top level raises `AttributeError` before the `try` block. -/
def getField (data : J) (key : String) : Except Unit J :=
  match data with
  | .obj fields =>
    .ok (match lookupKey fields key with
      | none => J.arr []
      | some x => x)
  | _ => .error ()

/-- Lines 114-115, `or []`, plus the iteration shape: a falsy value (absent
key, JSON null, empty array, and the other falsy shapes) yields the empty
list; a truthy non-array value makes the `for` loop body raise when the
records are built, which happens inside the `try` block. -/
def asEntryList (v : J) : Except Unit (List J) :=
  if v.truthy then
    match v with
    | .arr xs => .ok xs
    | _ => .error ()
  else .ok []

/-- processor.py lines 74-200.  `storeFail` injects a store error at the
batched inserts (`execute_batch`), which only runs when there are records to
insert.  Paths: the short-circuit commits and skips; a parse failure returns
normally without committing; a raise before the `try` block (non-object
top-level data) leaves the transaction open; a raise inside the `try` block
(bad entry shapes, the injected store error) rolls the transaction back to
the last commit. -/
def process_file (committed working : DB) (f : StagedFile) (now : Nat)
    (storeFail : Bool) : PFRes :=
  let st := upsertStage working f now
  let w1 := st.1
  let fid := st.2
  if shortCircuitB w1 fid f.content.hash f.content.size then
    ⟨w1, w1, .skipped⟩
  else
    match f.content.parsed with
    | none => ⟨committed, w1, .parseFail⟩
    | some data =>
      match getField data "randoms", getField data "targets" with
      | .error _, _ => ⟨committed, w1, .raised⟩
      | .ok _, .error _ => ⟨committed, w1, .raised⟩
      | .ok rv, .ok tv =>
        match asEntryList rv with
        | .error _ => ⟨committed, committed, .raised⟩
        | .ok randoms =>
          match randoms.mapM (buildRandomRecord fid) with
          | .error _ => ⟨committed, committed, .raised⟩
          | .ok rrecords =>
            let rvalid := validate_records rrecords 8
            if !rvalid.isEmpty && storeFail then ⟨committed, committed, .raised⟩
            else
              let w2 := { w1 with randoms := w1.randoms ++ rvalid }
              match asEntryList tv with
              | .error _ => ⟨committed, committed, .raised⟩
              | .ok targets =>
                match extractTargets fid [] targets with
                | .error _ => ⟨committed, committed, .raised⟩
                | .ok (trecords, _dups) =>
                  let tvalid := validate_records trecords 13
                  if !tvalid.isEmpty && storeFail then ⟨committed, committed, .raised⟩
                  else
                    let w3 := { w2 with targets := w2.targets ++ tvalid }
                    ⟨w3, w3, .ok⟩

/-- One `process_file` call on a fresh connection followed by the commit the
connection context manager performs when the cycle ends. -/
def ingestOnce (db : DB) (f : StagedFile) (now : Nat) (storeFail : Bool) :
    DB × Outcome :=
  let res := process_file db db f now storeFail
  (res.working, res.outcome)

/-- Insert a staged file into a name-sorted list. -/
def insertSorted (f : StagedFile) : List StagedFile → List StagedFile
  | [] => [f]
  | g :: rest => if strLe f.name g.name then f :: g :: rest else g :: insertSorted f rest

/-- `sorted(PENDING_DIR.glob(...))`: sort the enumerated files by name. -/
def sortByName : List StagedFile → List StagedFile
  | [] => []
  | f :: rest => insertSorted f (sortByName rest)

/-- Lines 215-236: walk the sorted pending files on one connection.  A file
named `last.json` (case-insensitively) is moved to processed untouched; other
files run `process_file`, and are moved to processed unless it raised.
Returns the committed and transaction states, the files left pending, and the
files moved to processed. -/
def runFiles (committed working : DB) (now : Nat) (storeFail : Bool) :
    List StagedFile → DB × DB × List StagedFile × List StagedFile
  | [] => (committed, working, [], [])
  | f :: rest =>
    if lowerS f.name == "last.json" then
      let r := runFiles committed working now storeFail rest
      (r.1, r.2.1, r.2.2.1, f :: r.2.2.2)
    else
      let pf := process_file committed working f now storeFail
      let r := runFiles pf.committed pf.working now storeFail rest
      match pf.outcome with
      | .raised => (r.1, r.2.1, f :: r.2.2.1, r.2.2.2)
      | _ => (r.1, r.2.1, r.2.2.1, f :: r.2.2.2)

/-- One iteration of `main_loop`: glob `*.json` in pending, sort, process each
file on one connection, and let the connection context manager commit the
open transaction at the end.  Returns the store state, the files still
pending, and the files now in processed. -/
def runCycle (db : DB) (pending : List StagedFile) (now : Nat)
    (storeFail : Bool) : DB × List StagedFile × List StagedFile :=
  let globbed := sortByName (pending.filter (fun f => endsWithS f.name ".json"))
  let r := runFiles db db now storeFail globbed
  (r.2.1, r.2.2.1 ++ pending.filter (fun f => !endsWithS f.name ".json"), r.2.2.2)

/-- downloader.py line 16: `base_url.rstrip('/') + '/'`. -/
def mkBaseUrl (b : String) : String :=
  ⟨(b.data.reverse.dropWhile (fun c => c == '/')).reverse ++ ['/']⟩

/-- Substring test on character lists. -/
def containsSub : List Char → List Char → Bool
  | [], sub => listPrefixOf sub []
  | c :: cs, sub => listPrefixOf sub (c :: cs) || containsSub cs sub

/-- Does `urlparse(href)` report a scheme or a netloc?  For listing hrefs this
is the presence of a `scheme://` separator or a leading `//`. -/
def isAbsoluteUrl (href : String) : Bool :=
  startsWithS href "//" || containsSub href.data ("://".data)

/-- downloader.py lines 48-60: per anchor href, skip the parent link, the
empty href, and anything whose lowercased text ends in `last.json`; keep the
remaining hrefs ending in `.json`, resolving relative ones against the base
url (`urljoin` of a directory-listing base and a relative filename is their
concatenation). -/
def jsonHrefs (base : String) (hrefs : List String) : List String :=
  hrefs.filterMap (fun href =>
    if href == "../" || href == "" || endsWithL (lowerList href.data) ("last.json".data) then
      none
    else if isAbsoluteUrl href then
      if endsWithL (lowerList href.data) (".json".data) then some href else none
    else if endsWithL (lowerList href.data) (".json".data) then some (base ++ href) else none)

/-- Keep the first occurrence of each string. -/
def dedupStrGo (seen : List String) : List String → List String
  | [] => []
  | x :: xs => if seen.contains x then dedupStrGo seen xs else x :: dedupStrGo (x :: seen) xs

/-- Insert into a sorted string list. -/
def insertSortedStr (s : String) : List String → List String
  | [] => [s]
  | x :: xs => if strLe s x then s :: x :: xs else x :: insertSortedStr s xs

/-- Sort strings in code-point order (Python `sorted`). -/
def sortStrings : List String → List String
  | [] => []
  | x :: xs => insertSortedStr x (sortStrings xs)

/-- downloader.py lines 36-63 (`check_for_json`), selection part: the unique
candidate urls, in sorted order (`sorted(set(json_hrefs))`), that the run
will try to download. -/
def check_for_json (base : String) (hrefs : List String) : List String :=
  sortStrings (dedupStrGo [] (jsonHrefs (mkBaseUrl base) hrefs))

/-- Drop everything from the first occurrence of a character on. -/
def takeUntilChar (c : Char) : List Char → List Char
  | [] => []
  | x :: xs => if x == c then [] else x :: takeUntilChar c xs

/-- The part of a path after the last slash. -/
def lastSlashComponent (cs : List Char) : List Char :=
  ((cs.reverse).takeWhile (fun c => c != '/')).reverse

/-- `Path(urlparse(file_url).path).name`: drop fragment and query, take the
last path component. -/
def urlFilename (url : String) : String :=
  ⟨lastSlashComponent (takeUntilChar '?' (takeUntilChar '#' url.data))⟩

/-- The filesystem names the fetcher consults: files in pending, processed,
the legacy downloads directory, and the `.part` markers present in pending. -/
structure FetchState where
  pendingNames : List String
  processedNames : List String
  downloadsNames : List String
  partNames : List String

/-- downloader.py lines 69-116 (`_download_file`), with the transport
succeeding (the claims concern what is never downloaded): skip `last.json`
defensively, skip a file already present in processed, pending or the legacy
downloads directory, skip when a partial marker exists; otherwise stream to
the temp file and atomically rename it into pending.  Returns the new state
and the downloaded filename, when any. -/
def download_file (st : FetchState) (file_url : String) : FetchState × Option String :=
  if lowerS (urlFilename file_url) == "last.json" then (st, none)
  else if st.processedNames.contains (urlFilename file_url) then (st, none)
  else if st.pendingNames.contains (urlFilename file_url) then (st, none)
  else if st.downloadsNames.contains (urlFilename file_url) then (st, none)
  else if st.partNames.contains (urlFilename file_url ++ ".part") then (st, none)
  else ({ st with pendingNames := st.pendingNames ++ [urlFilename file_url] },
        some (urlFilename file_url))

/-- Download each selected url in order (downloader.py lines 63-67). -/
def fetchFiles (st : FetchState) : List String → FetchState × List String
  | [] => (st, [])
  | u :: us =>
    let d := download_file st u
    let r := fetchFiles d.1 us
    (r.1, d.2.toList ++ r.2)

/-- One full fetcher pass: select the candidate urls from the listing and
download them. -/
def check_for_json_run (base : String) (hrefs : List String) (st : FetchState) :
    FetchState × List String :=
  fetchFiles st (check_for_json base hrefs)

/-- An empty store. -/
def emptyDB : DB := ⟨[], [], [], 1⟩

/-- A pending file whose bytes are not valid JSON. -/
def badParseFile : StagedFile := ⟨"2024-01-02_03-04-05_bad.json", ⟨"deadbeef", 42, none⟩⟩

/-- A pending file carrying only `randoms` entries and no targets. -/
def randomsOnlyFile : StagedFile :=
  ⟨"2024-01-02_03-04-05_r.json",
   ⟨"cafe01", 5,
    some (J.obj [("randoms", J.arr [J.obj [("name", J.str "r1"), ("id", J.num 3)]])])⟩⟩

/-- A pending file with one target entry, used as the C2 witness input. -/
def textbookFile : StagedFile :=
  ⟨"2024-03-15_10-30-00_data.json",
   ⟨"beef", 7, some (J.obj [("targets", J.arr [J.obj [("host", J.str "a.com")]])])⟩⟩

/-- A stored files row whose hash and size predate a content change. -/
def staleHashRow : FileRow := ⟨1, "2024-01-02_03-04-05_a.json", none, "OLDHASH", 1, 0⟩

/-- A previously committed child target row for file id 1. -/
def priorTargetRow : List DBVal := mkTargetRecord 1 [("host", J.str "a.com")] "a.com"

/-- A store holding the stale row and its child target. -/
def staleDB : DB := ⟨[staleHashRow], [priorTargetRow], [], 2⟩

/-- The same filename re-delivered with different bytes (new hash, new size,
new targets). -/
def changedFile : StagedFile :=
  ⟨"2024-01-02_03-04-05_a.json",
   ⟨"NEWHASH", 2, some (J.obj [("targets", J.arr [J.obj [("host", J.str "b.com")]])])⟩⟩

/-- A pending file with one random and one target entry, used as the C4
witness input. -/
def mixedFile : StagedFile :=
  ⟨"2024-01-02_03-04-05_m.json",
   ⟨"f00d", 11,
    some (J.obj
      [("randoms", J.arr [J.obj [("name", J.str "r1")]]),
       ("targets", J.arr [J.obj [("host", J.str "a.com")]])])⟩⟩

/-- The candidate a target entry contributes, before intra-file dedup: its
normalized host paired with the record the code would build for it.  Entries
with no usable normalized host contribute nothing. -/
def entryCandidate (fid : Nat) : J → Option (String × List DBVal)
  | .obj fields =>
    match normalizeHostVal (pyGet fields "host") with
    | .ok (some nh) => some (nh, mkTargetRecord fid fields nh)
    | _ => none
  | _ => none

/-- All candidates of a target array, in file order. -/
def candidatesOf (fid : Nat) (es : List J) : List (String × List DBVal) :=
  es.filterMap (entryCandidate fid)

/-- First-occurrence-wins deduplication by normalized host, as the spec words
it: keep a candidate if its key has not been seen, discard later ones. -/
def firstWins (seen : List String) : List (String × List DBVal) → List (List DBVal)
  | [] => []
  | (k, r) :: rest =>
    if seen.contains k then firstWins seen rest
    else r :: firstWins (k :: seen) rest

/-- The keys kept by first-occurrence-wins deduplication. -/
def firstWinsKeys (seen : List String) : List (String × List DBVal) → List String
  | [] => []
  | (k, _) :: rest =>
    if seen.contains k then firstWinsKeys seen rest
    else k :: firstWinsKeys (k :: seen) rest

/-- Did the dynamic `normalize_hostname(t.get("host"))` call return without
raising? -/
def isOkB : Except Unit (Option String) → Bool
  | .ok _ => true
  | .error _ => false

/-- A target entry on which extraction cannot raise: an object whose host
value is absent, falsy, or a string. -/
def entryHostSafe : J → Bool
  | .obj fields => isOkB (normalizeHostVal (pyGet fields "host"))
  | _ => false

/-- A pending file whose targets array holds one valid entry followed by an
entry of the wrong type (a bare number instead of a mapping). -/
def wrongTypeFile : StagedFile :=
  ⟨"2024-01-02_03-04-05_t.json",
   ⟨"ab12", 9,
    some (J.obj [("targets", J.arr [J.obj [("host", J.str "good.com")], J.num 5])])⟩⟩

/-- A pending file with ten valid target entries and two mapping entries
missing the required host field. -/
def tenPlusTwoFile : StagedFile :=
  ⟨"2024-01-02_03-04-05_u.json",
   ⟨"c0de", 3,
    some (J.obj [("targets", J.arr
      [J.obj [("host", J.str "h0.com")],
       J.obj [("host", J.str "h1.com")],
       J.obj [("host", J.str "h2.com")],
       J.obj [("host", J.str "h3.com")],
       J.obj [("host", J.str "h4.com")],
       J.obj [("host", J.str "h5.com")],
       J.obj [("host", J.str "h6.com")],
       J.obj [("host", J.str "h7.com")],
       J.obj [("host", J.str "h8.com")],
       J.obj [("host", J.str "h9.com")],
       J.obj [],
       J.obj [("port", J.num 80)]])])⟩⟩

/-- A concrete staged alias file. -/
def lastJsonFile : StagedFile := ⟨"last.json", ⟨"aa", 2, some (J.obj [])⟩⟩

/-! ## Theorems: supporting lemmas and the claim theorems -/

example : parse_timestamp_from_filename "15-03-2024_10-30-00_data.json" =
    some ⟨2024, 3, 15, 10, 30, 0⟩ := by rfl

example : parse_timestamp_from_filename "2024-03-15_10-30-00_data.json" =
    some ⟨2024, 3, 15, 10, 30, 0⟩ := by rfl

example : parse_timestamp_from_filename "nodate.json" = none := by rfl

example : parse_timestamp_from_filename "45-03-2024_10-30-00_x.json" = none := by rfl

example : normalize_hostname "WWW.Example.com " = some "example.com" := by rfl

example : normalize_hostname "" = none := by rfl

example : normalize_hostname "www." = none := by rfl

/-- The transaction state after the upsert stage differs from the input only
in the `files` table and the id sequence. -/
theorem upsertStage_frame (w : DB) (f : StagedFile) (now : Nat) :
    (upsertStage w f now).1.targets = w.targets ∧
    (upsertStage w f now).1.randoms = w.randoms := by
  constructor <;> rfl

/-- A file whose bytes fail to parse makes `process_file` either take the
short-circuit skip or return through the parse-failure branch; it never
raises. -/
theorem process_file_parsed_none_outcome (c w : DB) (f : StagedFile) (now : Nat)
    (sf : Bool) (h : f.content.parsed = none) :
    (process_file c w f now sf).outcome = .skipped ∨
      (process_file c w f now sf).outcome = .parseFail := by
  simp only [process_file, h]
  split
  · exact Or.inl rfl
  · exact Or.inr rfl

/-- A file whose bytes fail to parse leaves the `targets` and `randoms`
tables of the open transaction untouched. -/
theorem process_file_parsed_none_frame (c w : DB) (f : StagedFile) (now : Nat)
    (sf : Bool) (h : f.content.parsed = none) :
    (process_file c w f now sf).working.targets = w.targets ∧
      (process_file c w f now sf).working.randoms = w.randoms := by
  simp only [process_file, h]
  split
  · exact ⟨rfl, rfl⟩
  · exact ⟨rfl, rfl⟩

/-- Membership is preserved by sorted insertion. -/
theorem mem_insertSorted (f g : StagedFile) (l : List StagedFile) :
    g ∈ insertSorted f l ↔ g = f ∨ g ∈ l := by
  induction l with
  | nil => simp [insertSorted]
  | cons x xs ih =>
    unfold insertSorted
    split
    · simp only [List.mem_cons]
    · simp only [List.mem_cons, ih]
      tauto

/-- Membership is preserved by the name sort of the pending glob. -/
theorem mem_sortByName (g : StagedFile) (l : List StagedFile) :
    g ∈ sortByName l ↔ g ∈ l := by
  induction l with
  | nil => simp [sortByName]
  | cons x xs ih =>
    unfold sortByName
    rw [mem_insertSorted, ih]
    simp [List.mem_cons]

/-- A parse-failure file never ends up in the still-pending output of the
per-file walk, whatever the store states are. -/
theorem runFiles_parseFail_not_pending (f : StagedFile) (hf : f.content.parsed = none)
    (now : Nat) (sf : Bool) :
    ∀ (fs : List StagedFile) (c w : DB), f ∉ (runFiles c w now sf fs).2.2.1 := by
  intro fs
  induction fs with
  | nil => intro c w h; simp [runFiles] at h
  | cons g rest ih =>
    intro c w
    simp only [runFiles]
    split
    · exact ih c w
    · cases hout : (process_file c w g now sf).outcome with
      | raised =>
        simp only [hout, List.mem_cons]
        intro hmem
        rcases hmem with hfg | hmem
        · subst hfg
          rcases process_file_parsed_none_outcome c w f now sf hf with h1 | h1 <;>
            rw [hout] at h1 <;> cases h1
        · exact ih _ _ hmem
      | ok => simp only [hout]; exact ih _ _
      | skipped => simp only [hout]; exact ih _ _
      | parseFail => simp only [hout]; exact ih _ _

/-- A parse-failure file that is among the walked files is moved to the
processed list. -/
theorem runFiles_parseFail_processed (f : StagedFile) (hf : f.content.parsed = none)
    (now : Nat) (sf : Bool) :
    ∀ (fs : List StagedFile) (c w : DB), f ∈ fs → f ∈ (runFiles c w now sf fs).2.2.2 := by
  intro fs
  induction fs with
  | nil => intro c w h; cases h
  | cons g rest ih =>
    intro c w hmem
    simp only [runFiles]
    rcases List.mem_cons.mp hmem with hfg | hmem
    · subst hfg
      split
      · exact List.mem_cons_self _ _
      · rcases process_file_parsed_none_outcome c w f now sf hf with h1 | h1 <;>
          simp only [h1] <;> exact List.mem_cons_self _ _
    · split
      · exact List.mem_cons_of_mem _ (ih _ _ hmem)
      · cases hout : (process_file c w g now sf).outcome <;> simp only [hout]
        · exact List.mem_cons_of_mem _ (ih _ _ hmem)
        · exact List.mem_cons_of_mem _ (ih _ _ hmem)
        · exact List.mem_cons_of_mem _ (ih _ _ hmem)
        · exact ih _ _ hmem

/-- C1 counterexample: a pending file whose contents fail to parse as JSON is
not left in the pending directory by one ingestion cycle — the cycle moves it
to processed, because `process_file` returns normally after logging the parse
error and `main_loop` treats any normal return as success. -/
theorem claim1_counterexample :
    (runCycle emptyDB [badParseFile] 7 false).2.1 = [] ∧
    (runCycle emptyDB [badParseFile] 7 false).2.2 = [badParseFile] :=
  ⟨rfl, rfl⟩

/-- C1 (amended): for every pending file whose contents fail to parse as
JSON, one ingestion cycle logs the parse error and relocates the file to the
processed directory (it does not stay pending and is not retried); no target
or random rows are inserted for it, and `process_file` returns normally
(short-circuit skip or parse-failure return, never a raise). -/
theorem claim1_parse_failure_logged_and_relocated
    (db : DB) (pending : List StagedFile) (f : StagedFile) (now : Nat) (sf : Bool)
    (hmem : f ∈ pending) (hparse : f.content.parsed = none)
    (hjson : endsWithS f.name ".json" = true) :
    f ∈ (runCycle db pending now sf).2.2 ∧
    f ∉ (runCycle db pending now sf).2.1 ∧
    (∀ c w : DB,
      (process_file c w f now sf).working.targets = w.targets ∧
      (process_file c w f now sf).working.randoms = w.randoms ∧
      ((process_file c w f now sf).outcome = .skipped ∨
        (process_file c w f now sf).outcome = .parseFail)) := by
  refine ⟨?_, ?_, ?_⟩
  · simp only [runCycle]
    have hg : f ∈ sortByName (pending.filter (fun f => endsWithS f.name ".json")) := by
      rw [mem_sortByName]
      exact List.mem_filter.mpr ⟨hmem, hjson⟩
    exact runFiles_parseFail_processed f hparse now sf _ db db hg
  · simp only [runCycle]
    intro hcon
    rcases List.mem_append.mp hcon with h1 | h1
    · exact runFiles_parseFail_not_pending f hparse now sf _ db db h1
    · have h2 := (List.mem_filter.mp h1).2
      simp only [hjson] at h2
      cases h2
  · intro c w
    exact ⟨(process_file_parsed_none_frame c w f now sf hparse).1,
           (process_file_parsed_none_frame c w f now sf hparse).2,
           process_file_parsed_none_outcome c w f now sf hparse⟩

/-- Witness for C1 (amended) at a concrete malformed pending file. -/
theorem claim1_witness :
    badParseFile ∈ (runCycle emptyDB [badParseFile] 7 false).2.2 :=
  (claim1_parse_failure_logged_and_relocated emptyDB [badParseFile] badParseFile 7 false
    (List.mem_singleton.mpr rfl) rfl (by decide)).1

/-- The upsert update arm never changes a row id. -/
theorem updFile_id (filename : String) (ts : Option DateTime) (sha : String)
    (size : Nat) (now : Nat) (r : FileRow) :
    (updFile filename ts sha size now r).id = r.id := by
  unfold updFile
  split <;> rfl

/-- The upsert update arm never changes a row filename. -/
theorem updFile_filename (filename : String) (ts : Option DateTime) (sha : String)
    (size : Nat) (now : Nat) (r : FileRow) :
    (updFile filename ts sha size now r).filename = r.filename := by
  unfold updFile
  split <;> rfl

/-- Finding by id after an id-preserving row update, under unique ids: the
search returns the updated version of the unique row with that id. -/
theorem find_map_upd_by_id (u : FileRow → FileRow) (hid : ∀ r, (u r).id = r.id) :
    ∀ (files : List FileRow) (row : FileRow), (files.map FileRow.id).Nodup →
      row ∈ files →
      (files.map u).find? (fun r => r.id == row.id) = some (u row) := by
  intro files
  induction files with
  | nil => intro row _ h; cases h
  | cons x xs ih =>
    intro row hnd hmem
    rw [List.map_cons] at hnd
    have hx := (List.nodup_cons.mp hnd).1
    have hxs := (List.nodup_cons.mp hnd).2
    rw [List.map_cons]
    rcases List.mem_cons.mp hmem with hrx | hmem
    · subst hrx
      apply List.find?_cons_of_pos
      simp [hid]
    · have hne : x.id ≠ row.id := by
        intro hcon
        exact hx (hcon ▸ List.mem_map_of_mem FileRow.id hmem)
      rw [List.find?_cons_of_neg, ih row hxs hmem]
      simp [hid]
      exact hne

/-- `hasTargetChildB` depends only on the `targets` table. -/
theorem hasTargetChildB_targets (db db2 : DB) (fid : Nat)
    (h : db.targets = db2.targets) : hasTargetChildB db fid = hasTargetChildB db2 fid := by
  unfold hasTargetChildB
  rw [h]

/-- C2 counterexample: for a file with randoms but no target rows, running
`process_file` twice on the same unchanged bytes does not yield the same row
counts as running it once — the idempotency gate probes only for a child
target row, so the second run re-inserts the randoms (one insert, not zero). -/
theorem claim2_counterexample :
    (ingestOnce emptyDB randomsOnlyFile 1 false).1.randoms.length = 1 ∧
    (ingestOnce (ingestOnce emptyDB randomsOnlyFile 1 false).1
        randomsOnlyFile 2 false).1.randoms.length = 2 ∧
    (1 : Nat) ≠ 2 :=
  ⟨rfl, rfl, by decide⟩

/-- C2 (amended): running `process_file` twice on the same unchanged bytes
yields the same final row counts provided the first run left at least one
child target row for the file — then the second run takes the short-circuit
skip, performs zero child-row inserts, and the files row carries the matching
hash and size. -/
theorem claim2_second_run_skips (db db1 : DB) (f : StagedFile) (now1 now2 : Nat)
    (o1 : Outcome) (row : FileRow)
    (_h1 : ingestOnce db f now1 false = (db1, o1))
    (hids : (db1.files.map FileRow.id).Nodup)
    (hrow : db1.files.find? (fun r => r.filename == f.name) = some row)
    (hchild : hasTargetChildB db1 row.id = true) :
    (ingestOnce db1 f now2 false).2 = .skipped ∧
    (ingestOnce db1 f now2 false).1.targets = db1.targets ∧
    (ingestOnce db1 f now2 false).1.randoms = db1.randoms ∧
    (∀ r2, filesRowOf (ingestOnce db1 f now2 false).1 f.name = some r2 →
      r2.sha256 = f.content.hash ∧ r2.size_bytes = f.content.size) := by
  have hname : (row.filename == f.name) = true := by
    simpa using List.find?_some hrow
  set u := updFile f.name (parse_timestamp_from_filename f.name) f.content.hash
    f.content.size now2 with hu
  have hstage : upsertStage db1 f now2 = ({ db1 with files := db1.files.map u }, row.id) := by
    unfold upsertStage upsertFile
    rw [hrow]
  have hfind : (db1.files.map u).find? (fun r => r.id == row.id) = some (u row) :=
    find_map_upd_by_id u (updFile_id f.name _ _ _ _) db1.files row hids
      (List.mem_of_find?_eq_some hrow)
  have hurow : u row =
      { row with
        sha256 := f.content.hash, size_bytes := f.content.size,
        fetched_at := coalesce row.fetched_at (parse_timestamp_from_filename f.name),
        processed_at := now2 } := by
    rw [hu]
    unfold updFile
    rw [hname]
    simp
  have hsc : shortCircuitB { db1 with files := db1.files.map u } row.id
      f.content.hash f.content.size = true := by
    unfold shortCircuitB findFileById
    rw [hfind, hurow]
    rw [hasTargetChildB_targets { db1 with files := db1.files.map u } db1 row.id rfl]
    simp [hchild]
  have hpf : process_file db1 db1 f now2 false =
      ⟨{ db1 with files := db1.files.map u }, { db1 with files := db1.files.map u },
        .skipped⟩ := by
    simp only [process_file, hstage, hsc, if_true]
  refine ⟨?_, ?_, ?_, ?_⟩
  · simp only [ingestOnce, hpf]
  · simp only [ingestOnce, hpf]
  · simp only [ingestOnce, hpf]
  · intro r2 hr2
    simp only [ingestOnce, hpf, filesRowOf] at hr2
    rw [List.find?_map] at hr2
    have hcomp : ((fun r => r.filename == f.name) ∘ u) = (fun r => r.filename == f.name) := by
      funext r
      simp only [Function.comp_apply]
      rw [hu, updFile_filename]
    rw [hcomp, hrow] at hr2
    have h2 : u row = r2 := Option.some.inj hr2
    rw [hurow] at h2
    rw [← h2]
    exact ⟨rfl, rfl⟩

/-- Witness for C2 (amended): after a first ingestion of a file with one
target, the second run takes the short-circuit skip. -/
theorem claim2_witness :
    (ingestOnce (ingestOnce emptyDB textbookFile 1 false).1 textbookFile 2 false).2 =
      .skipped :=
  (claim2_second_run_skips emptyDB (ingestOnce emptyDB textbookFile 1 false).1
    textbookFile 1 2 (ingestOnce emptyDB textbookFile 1 false).2
    ⟨1, "2024-03-15_10-30-00_data.json", some ⟨2024, 3, 15, 10, 30, 0⟩, "beef", 7, 1⟩
    rfl (by decide) (by rfl) (by rfl)).1

/-- C3: the short-circuit check is supposed to skip only when the freshly
computed hash and size match the values already stored, but the code
re-selects the row after the upsert has already overwritten them, so the
comparison always succeeds: a file whose content changed (hash `NEWHASH`
versus stored `OLDHASH`, size 2 versus 1) is still skipped because a child
target row exists, and its new targets are never ingested. -/
theorem claim3_code_bug_eval :
    staleHashRow.sha256 ≠ changedFile.content.hash ∧
    staleHashRow.size_bytes ≠ changedFile.content.size ∧
    (process_file staleDB staleDB changedFile 9 false).outcome = .skipped ∧
    (process_file staleDB staleDB changedFile 9 false).working.targets = staleDB.targets :=
  ⟨by decide, by decide, rfl, rfl⟩

/-- Under unique filenames, any member of the table carrying the searched
filename is the row `find?` returned. -/
theorem mem_filename_eq_find :
    ∀ (files : List FileRow) (fname : String) (row r : FileRow),
      (files.map FileRow.filename).Nodup →
      files.find? (fun x => x.filename == fname) = some row →
      r ∈ files → r.filename = fname → r = row := by
  intro files
  induction files with
  | nil => intro fname row r _ _ hr; cases hr
  | cons x xs ih =>
    intro fname row r hnd hfind hr hrf
    rw [List.map_cons] at hnd
    have hx := (List.nodup_cons.mp hnd).1
    have hxs := (List.nodup_cons.mp hnd).2
    cases hbx : (x.filename == fname) with
    | true =>
      simp only [List.find?, hbx] at hfind
      have hxrow : x = row := Option.some.inj hfind
      rcases List.mem_cons.mp hr with hrx | hrtail
      · rw [hrx, hxrow]
      · exfalso
        apply hx
        have hmm : r.filename ∈ xs.map FileRow.filename := List.mem_map_of_mem _ hrtail
        rw [hrf] at hmm
        have hxf : x.filename = fname := by simpa using hbx
        rw [hxf]
        exact hmm
    | false =>
      simp only [List.find?, hbx] at hfind
      rcases List.mem_cons.mp hr with hrx | hrtail
      · exfalso
        have hcon : (x.filename == fname) = true := by
          rw [← hrx]
          simp [hrf]
        rw [hbx] at hcon
        cases hcon
      · exact ih fname row r hxs hfind hrtail hrf

/-- C7: re-ingesting an already-stored filename runs the files upsert through
its update arm: the returned id is the stored row id, the id sequence does
not advance, rows under other filenames pass through unchanged in both
directions, and the row stored for the filename is the old row with hash,
size and processed-at refreshed and `fetched_at` kept when already non-null
(`coalesce`), taken from the incoming timestamp only when it was null. -/
theorem claim7_upsert_refreshes_and_frames (files : List FileRow) (n : Nat)
    (fname : String) (ts : Option DateTime) (sha : String) (size now : Nat)
    (row : FileRow)
    (hnames : (files.map FileRow.filename).Nodup)
    (hrow : files.find? (fun r => r.filename == fname) = some row) :
    (upsertFile files n fname ts sha size now).2.2 = row.id ∧
    (upsertFile files n fname ts sha size now).2.1 = n ∧
    (∀ r ∈ files, r.filename ≠ fname → r ∈ (upsertFile files n fname ts sha size now).1) ∧
    (∀ r2 ∈ (upsertFile files n fname ts sha size now).1, r2.filename ≠ fname → r2 ∈ files) ∧
    (∀ r2 ∈ (upsertFile files n fname ts sha size now).1, r2.filename = fname →
      r2.id = row.id ∧ r2.sha256 = sha ∧ r2.size_bytes = size ∧ r2.processed_at = now ∧
      r2.fetched_at = coalesce row.fetched_at ts ∧
      (∀ t, row.fetched_at = some t → r2.fetched_at = some t) ∧
      (row.fetched_at = none → r2.fetched_at = ts)) := by
  have hup : upsertFile files n fname ts sha size now =
      (files.map (updFile fname ts sha size now), n, row.id) := by
    unfold upsertFile
    rw [hrow]
  refine ⟨by rw [hup], by rw [hup], ?_, ?_, ?_⟩
  · intro r hr hne
    rw [hup]
    have : updFile fname ts sha size now r = r := by
      unfold updFile
      rw [if_neg]
      simp only [beq_iff_eq]
      exact hne
    rw [← this]
    exact List.mem_map_of_mem _ hr
  · intro r2 hr2 hne
    rw [hup] at hr2
    rcases List.mem_map.mp hr2 with ⟨r, hr, hur⟩
    have hfn : r2.filename = r.filename := by rw [← hur, updFile_filename]
    have hrne : r.filename ≠ fname := by rw [← hfn]; exact hne
    have : updFile fname ts sha size now r = r := by
      unfold updFile
      rw [if_neg]
      simp only [beq_iff_eq]
      exact hrne
    rw [this] at hur
    rw [← hur]
    exact hr
  · intro r2 hr2 heq
    rw [hup] at hr2
    rcases List.mem_map.mp hr2 with ⟨r, hr, hur⟩
    have hfn : r.filename = fname := by rw [← updFile_filename fname ts sha size now r, hur, heq]
    have hrrow : r = row := mem_filename_eq_find files fname row r hnames hrow hr hfn
    have hval : r2 =
        { row with
          sha256 := sha, size_bytes := size,
          fetched_at := coalesce row.fetched_at ts, processed_at := now } := by
      rw [← hur, hrrow]
      unfold updFile
      rw [if_pos]
      simp only [beq_iff_eq]
      rw [hrrow] at hfn
      exact hfn
    rw [hval]
    refine ⟨rfl, rfl, rfl, rfl, rfl, ?_, ?_⟩
    · intro t ht
      simp only [coalesce, ht]
    · intro ht
      simp only [coalesce, ht]

/-- Witness for C7 at a concrete stored row: the upsert of a re-delivered
filename returns the stored id. -/
theorem claim7_witness :
    (upsertFile [⟨5, "2024-03-15_10-30-00_data.json", some ⟨2024, 3, 15, 10, 30, 0⟩,
        "old", 3, 11⟩] 6 "2024-03-15_10-30-00_data.json" none "new" 4 12).2.2 = 5 :=
  (claim7_upsert_refreshes_and_frames
    [⟨5, "2024-03-15_10-30-00_data.json", some ⟨2024, 3, 15, 10, 30, 0⟩, "old", 3, 11⟩]
    6 "2024-03-15_10-30-00_data.json" none "new" 4 12
    ⟨5, "2024-03-15_10-30-00_data.json", some ⟨2024, 3, 15, 10, 30, 0⟩, "old", 3, 11⟩
    (by decide) (by rfl)).1

/-- C4: when the batched insert raises a store error (`storeFail`), for any
file that parses, is not short-circuited, and has at least one record to
insert, the whole per-file transaction — the files upsert together with all
random and target inserts — is rolled back: both the committed state and the
transaction state come back exactly as the pre-existing committed store, so
no partial rows become visible and previously committed rows are unchanged;
the polling cycle then leaves the file in pending. -/
theorem claim4_store_error_rolls_back (db : DB) (f : StagedFile) (now : Nat)
    (data rv tv : J) (rs ts : List J) (rrecs trecs : List (List DBVal)) (dups : Nat)
    (hps : f.content.parsed = some data)
    (hsc : shortCircuitB (upsertStage db f now).1 (upsertStage db f now).2
      f.content.hash f.content.size = false)
    (hgr : getField data "randoms" = .ok rv)
    (hgt : getField data "targets" = .ok tv)
    (hr : asEntryList rv = .ok rs)
    (ht : asEntryList tv = .ok ts)
    (hrr : rs.mapM (buildRandomRecord (upsertStage db f now).2) = .ok rrecs)
    (htt : extractTargets (upsertStage db f now).2 [] ts = .ok (trecs, dups))
    (hnonempty : validate_records rrecs 8 ≠ [] ∨ validate_records trecs 13 ≠ [])
    (hjson : endsWithS f.name ".json" = true)
    (hnl : (lowerS f.name == "last.json") = false) :
    process_file db db f now true = ⟨db, db, .raised⟩ ∧
    runCycle db [f] now true = (db, [f], []) := by
  have hmain : process_file db db f now true = ⟨db, db, .raised⟩ := by
    simp only [process_file, hsc, hps, hgr, hgt, hr, ht, hrr, htt, if_false,
      Bool.false_and, Bool.and_true]
    cases hre : (validate_records rrecs 8).isEmpty with
    | false => simp [hre]
    | true =>
      have hremp : validate_records rrecs 8 = [] := List.isEmpty_iff.mp hre
      have htne : validate_records trecs 13 ≠ [] := by
        rcases hnonempty with hcase | hcase
        · exact absurd hremp hcase
        · exact hcase
      have htb : (validate_records trecs 13).isEmpty = false := by
        cases hcase : (validate_records trecs 13).isEmpty with
        | false => rfl
        | true => exact absurd (List.isEmpty_iff.mp hcase) htne
      simp [hre, htb]
  refine ⟨hmain, ?_⟩
  simp only [runCycle, List.filter, hjson, sortByName, insertSorted, runFiles, hnl,
    Bool.not_true, hmain]
  rfl

/-- Witness for C4 at a concrete file: with the store error injected, the
whole cycle leaves both the store and the pending directory unchanged. -/
theorem claim4_witness : runCycle emptyDB [mixedFile] 3 true = (emptyDB, [mixedFile], []) :=
  (claim4_store_error_rolls_back emptyDB mixedFile 3
    (J.obj
      [("randoms", J.arr [J.obj [("name", J.str "r1")]]),
       ("targets", J.arr [J.obj [("host", J.str "a.com")]])])
    (J.arr [J.obj [("name", J.str "r1")]]) (J.arr [J.obj [("host", J.str "a.com")]])
    [J.obj [("name", J.str "r1")]] [J.obj [("host", J.str "a.com")]]
    [[DBVal.int 1, .json (J.str "r1"), .null, .null, .null, .null, .null, .null]]
    [mkTargetRecord 1 [("host", J.str "a.com")] "a.com"] 0
    rfl rfl rfl rfl rfl rfl rfl rfl (Or.inl (List.cons_ne_nil _ _)) (by decide)
    (by decide)).2

/-- Bridge from the Boolean seen-set probe to membership. -/
theorem contains_true_mem (l : List String) (a : String) (h : l.contains a = true) :
    a ∈ l :=
  List.elem_iff.mp h

/-- Bridge from a failed Boolean seen-set probe to non-membership. -/
theorem contains_false_not_mem (l : List String) (a : String)
    (h : l.contains a = false) : a ∉ l := by
  intro hm
  have h2 : l.contains a = true := List.elem_iff.mpr hm
  rw [h2] at h
  cases h

/-- Equation: a target entry whose host raises aborts the walk. -/
theorem extractTargets_cons_err (fid : Nat) (seen : List String)
    (fields : List (String × J)) (rest : List J) (u : Unit)
    (hn : normalizeHostVal (pyGet fields "host") = .error u) :
    extractTargets fid seen (J.obj fields :: rest) = .error () := by
  simp only [extractTargets]
  rw [hn]

/-- Equation: a target entry with no usable host is dropped and the walk
continues. -/
theorem extractTargets_cons_none (fid : Nat) (seen : List String)
    (fields : List (String × J)) (rest : List J)
    (hn : normalizeHostVal (pyGet fields "host") = .ok none) :
    extractTargets fid seen (J.obj fields :: rest) = extractTargets fid seen rest := by
  simp only [extractTargets]
  rw [hn]

/-- Equation: a target entry with a usable host branches on the seen set. -/
theorem extractTargets_cons_some (fid : Nat) (seen : List String)
    (fields : List (String × J)) (rest : List J) (nh : String)
    (hn : normalizeHostVal (pyGet fields "host") = .ok (some nh)) :
    extractTargets fid seen (J.obj fields :: rest) =
      if seen.contains nh then
        (match extractTargets fid seen rest with
         | .error _ => .error ()
         | .ok (r, d) => .ok (r, d + 1))
      else
        (match extractTargets fid (nh :: seen) rest with
         | .error _ => .error ()
         | .ok (r, d) => .ok (mkTargetRecord fid fields nh :: r, d)) := by
  simp only [extractTargets]
  rw [hn]

/-- When the extraction walk succeeds, the inserted records are exactly the
first-occurrence-wins selection of the candidates, and the suppressed
duplicate count plus the kept count is the candidate count. -/
theorem extractTargets_ok (fid : Nat) :
    ∀ (es : List J) (seen : List String) (recs : List (List DBVal)) (dups : Nat),
      extractTargets fid seen es = .ok (recs, dups) →
      recs = firstWins seen (candidatesOf fid es) ∧
      dups + recs.length = (candidatesOf fid es).length := by
  intro es
  induction es with
  | nil =>
    intro seen recs dups h
    injection h with hpair
    injection hpair with h1 h2
    subst h1; subst h2
    simp [candidatesOf, firstWins]
  | cons e rest ih =>
    intro seen recs dups h
    cases e with
    | obj fields =>
      cases hn : normalizeHostVal (pyGet fields "host") with
      | error u =>
        rw [extractTargets_cons_err fid seen fields rest u hn] at h
        exact Except.noConfusion h
      | ok onh =>
        cases onh with
        | none =>
          rw [extractTargets_cons_none fid seen fields rest hn] at h
          have hcand : entryCandidate fid (J.obj fields) = none := by
            simp [entryCandidate, hn]
          have hres := ih seen recs dups h
          simpa [candidatesOf, hcand] using hres
        | some nh =>
          rw [extractTargets_cons_some fid seen fields rest nh hn] at h
          have hcand : entryCandidate fid (J.obj fields) =
              some (nh, mkTargetRecord fid fields nh) := by
            simp [entryCandidate, hn]
          cases hs : seen.contains nh with
          | true =>
            have hmem : nh ∈ seen := contains_true_mem seen nh hs
            rw [hs, if_pos rfl] at h
            cases hrest : extractTargets fid seen rest with
            | error u =>
              rw [hrest] at h
              exact Except.noConfusion h
            | ok pr =>
              obtain ⟨recs0, dups0⟩ := pr
              rw [hrest] at h
              have h2 : (Except.ok (recs0, dups0 + 1) :
                  Except Unit (List (List DBVal) × Nat)) = Except.ok (recs, dups) := h
              injection h2 with hpair
              injection hpair with hr1 hr2
              have hres := ih seen recs0 dups0 hrest
              constructor
              · rw [← hr1, hres.1]
                simp [candidatesOf, hcand, firstWins, hmem]
              · rw [← hr1, ← hr2]
                have hlen : dups0 + recs0.length = (candidatesOf fid rest).length := hres.2
                simp only [candidatesOf, List.filterMap_cons, hcand, List.length_cons]
                simp only [candidatesOf] at hlen
                omega
          | false =>
            have hnm : nh ∉ seen := contains_false_not_mem seen nh hs
            rw [hs, if_neg Bool.false_ne_true] at h
            cases hrest : extractTargets fid (nh :: seen) rest with
            | error u =>
              rw [hrest] at h
              exact Except.noConfusion h
            | ok pr =>
              obtain ⟨recs0, dups0⟩ := pr
              rw [hrest] at h
              have h2 : (Except.ok (mkTargetRecord fid fields nh :: recs0, dups0) :
                  Except Unit (List (List DBVal) × Nat)) = Except.ok (recs, dups) := h
              injection h2 with hpair
              injection hpair with hr1 hr2
              have hres := ih (nh :: seen) recs0 dups0 hrest
              constructor
              · rw [← hr1, hres.1]
                simp [candidatesOf, hcand, firstWins, hnm]
              · rw [← hr1, ← hr2]
                have hlen : dups0 + recs0.length = (candidatesOf fid rest).length := hres.2
                simp only [candidatesOf, List.filterMap_cons, hcand, List.length_cons,
                  List.length_cons]
                simp only [candidatesOf] at hlen
                omega
    | null => exact Except.noConfusion h
    | bool b => exact Except.noConfusion h
    | num n => exact Except.noConfusion h
    | str s => exact Except.noConfusion h
    | arr xs => exact Except.noConfusion h

/-- Extraction never raises on a list of host-safe object entries. -/
theorem extractTargets_total (fid : Nat) :
    ∀ (es : List J) (seen : List String), (∀ e ∈ es, entryHostSafe e = true) →
      ∃ recs dups, extractTargets fid seen es = .ok (recs, dups) := by
  intro es
  induction es with
  | nil => intro seen _; exact ⟨[], 0, rfl⟩
  | cons e rest ih =>
    intro seen hsafe
    have hse := hsafe e (List.mem_cons_self _ _)
    have hrest : ∀ x ∈ rest, entryHostSafe x = true :=
      fun x hx => hsafe x (List.mem_cons_of_mem _ hx)
    cases e with
    | obj fields =>
      cases hn : normalizeHostVal (pyGet fields "host") with
      | error u =>
        exfalso
        have hse2 : isOkB (Except.error u) = true := by
          have : entryHostSafe (J.obj fields) = isOkB (normalizeHostVal (pyGet fields "host")) :=
            rfl
          rw [this, hn] at hse
          exact hse
        exact Bool.noConfusion hse2
      | ok onh =>
        cases onh with
        | none =>
          rw [extractTargets_cons_none fid seen fields rest hn]
          exact ih seen hrest
        | some nh =>
          rw [extractTargets_cons_some fid seen fields rest nh hn]
          cases hs : seen.contains nh with
          | true =>
            rcases ih seen hrest with ⟨recs, dups, hok⟩
            refine ⟨recs, dups + 1, ?_⟩
            rw [if_pos rfl, hok]
          | false =>
            rcases ih (nh :: seen) hrest with ⟨recs, dups, hok⟩
            refine ⟨mkTargetRecord fid fields nh :: recs, dups, ?_⟩
            rw [if_neg Bool.false_ne_true, hok]
    | null => exact Bool.noConfusion hse
    | bool b => exact Bool.noConfusion hse
    | num n => exact Bool.noConfusion hse
    | str s => exact Bool.noConfusion hse
    | arr xs => exact Bool.noConfusion hse

/-- The code normalization agrees with the spec pipeline on every string. -/
theorem normalize_hostname_eq_spec (s : String) :
    normalize_hostname s = specNormalize s := by
  unfold normalize_hostname specNormalize
  by_cases hs : s = ""
  · subst hs
    rfl
  · rw [if_neg hs]
    by_cases hn : lowerS (stripS s) = ""
    · simp only [hn]
      rfl
    · simp only [if_neg hn]

/-- Every candidate record stores its key as the `normalized_host` column
(position 4 of the insert tuple). -/
theorem candidate_key_col (fid : Nat) (es : List J) :
    ∀ p ∈ candidatesOf fid es, (p.2).getD 4 DBVal.null = DBVal.str p.1 := by
  intro p hp
  rcases List.mem_filterMap.mp hp with ⟨e, _, he⟩
  cases e with
  | obj fields =>
    simp only [entryCandidate] at he
    cases hn : normalizeHostVal (pyGet fields "host") with
    | error u => rw [hn] at he; cases he
    | ok onh =>
      rw [hn] at he
      cases onh with
      | none => cases he
      | some nh =>
        have hpe : (nh, mkTargetRecord fid fields nh) = p := Option.some.inj he
        rw [← hpe]
        rfl
  | null => cases he
  | bool b => cases he
  | num n => cases he
  | str s => cases he
  | arr xs => cases he

/-- The keys selected by first-occurrence-wins are distinct and disjoint from
the seen set. -/
theorem firstWinsKeys_nodup :
    ∀ (cands : List (String × List DBVal)) (seen : List String),
      (firstWinsKeys seen cands).Nodup ∧ ∀ k ∈ firstWinsKeys seen cands, k ∉ seen := by
  intro cands
  induction cands with
  | nil => intro seen; exact ⟨List.nodup_nil, by intro k hk; cases hk⟩
  | cons p rest ih =>
    intro seen
    obtain ⟨k0, r0⟩ := p
    simp only [firstWinsKeys]
    cases hs : seen.contains k0 with
    | true =>
      rw [if_pos rfl]
      exact ih seen
    | false =>
      rw [if_neg Bool.false_ne_true]
      have hrec := ih (k0 :: seen)
      constructor
      · apply List.nodup_cons.mpr
        constructor
        · intro hmem
          exact (hrec.2 k0 hmem) (List.mem_cons_self _ _)
        · exact hrec.1
      · intro k hk
        rcases List.mem_cons.mp hk with hk0 | hkrest
        · rw [hk0]
          exact contains_false_not_mem seen k0 hs
        · intro hkseen
          exact (hrec.2 k hkrest) (List.mem_cons_of_mem _ hkseen)

/-- The records selected by first-occurrence-wins project to their keys on
the `normalized_host` column. -/
theorem firstWins_proj_keys :
    ∀ (cands : List (String × List DBVal)) (seen : List String),
      (∀ p ∈ cands, (p.2).getD 4 DBVal.null = DBVal.str p.1) →
      (firstWins seen cands).map (fun r => r.getD 4 DBVal.null) =
        (firstWinsKeys seen cands).map DBVal.str := by
  intro cands
  induction cands with
  | nil => intro seen _; rfl
  | cons p rest ih =>
    intro seen hproj
    obtain ⟨k0, r0⟩ := p
    have hp0 : r0.getD 4 DBVal.null = DBVal.str k0 :=
      hproj (k0, r0) (List.mem_cons_self _ _)
    have hrest : ∀ q ∈ rest, (q.2).getD 4 DBVal.null = DBVal.str q.1 :=
      fun q hq => hproj q (List.mem_cons_of_mem _ hq)
    simp only [firstWins, firstWinsKeys]
    cases hs : seen.contains k0 with
    | true =>
      rw [if_pos rfl, if_pos rfl]
      exact ih seen hrest
    | false =>
      rw [if_neg Bool.false_ne_true, if_neg Bool.false_ne_true]
      simp only [List.map_cons, hp0]
      rw [ih (k0 :: seen) hrest]

/-- C5: target hosts are normalized by the strip-lowercase-drop-www pipeline
(the code function equals the spec pipeline pointwise); entries with no
usable normalized host contribute no candidate; among entries sharing a
normalized host exactly the first occurrence is inserted (the extraction
result is the first-occurrence-wins selection over the candidates, whose
normalized-host column values are pairwise distinct) and later ones are
counted as suppressed duplicates; concretely, a file with hosts `a.com` then
`WWW.A.com` yields exactly one record, built from the first entry, with
normalized host `a.com` and one suppressed duplicate. -/
theorem claim5_normalize_dedup_first_wins :
    (∀ s : String, normalize_hostname s = specNormalize s) ∧
    (∀ (fid : Nat) (es : List J) (recs : List (List DBVal)) (dups : Nat),
      extractTargets fid [] es = .ok (recs, dups) →
      recs = firstWins [] (candidatesOf fid es) ∧
      dups + recs.length = (candidatesOf fid es).length ∧
      (recs.map (fun r => r.getD 4 DBVal.null)).Nodup) ∧
    (extractTargets 7 []
        [J.obj [("host", J.str "a.com")], J.obj [("host", J.str "WWW.A.com")]] =
      .ok ([mkTargetRecord 7 [("host", J.str "a.com")] "a.com"], 1)) ∧
    normalize_hostname "WWW.A.com" = some "a.com" := by
  refine ⟨normalize_hostname_eq_spec, ?_, by rfl, by rfl⟩
  intro fid es recs dups h
  have hok := extractTargets_ok fid es [] recs dups h
  refine ⟨hok.1, hok.2, ?_⟩
  rw [hok.1, firstWins_proj_keys (candidatesOf fid es) [] (candidate_key_col fid es)]
  apply List.Nodup.map
  · intro a b hab
    cases hab
    rfl
  · exact (firstWinsKeys_nodup (candidatesOf fid es) []).1

/-- Witness for C5 at the two-entry example file. -/
theorem claim5_witness :
    [mkTargetRecord 7 [("host", J.str "a.com")] "a.com"] =
      firstWins [] (candidatesOf 7
        [J.obj [("host", J.str "a.com")], J.obj [("host", J.str "WWW.A.com")]]) :=
  (claim5_normalize_dedup_first_wins.2.1 7
    [J.obj [("host", J.str "a.com")], J.obj [("host", J.str "WWW.A.com")]]
    [mkTargetRecord 7 [("host", J.str "a.com")] "a.com"] 1
    claim5_normalize_dedup_first_wins.2.2.1).1

/-- C6 counterexample: an entry of the wrong type is not dropped
individually — `t.get("host")` raises on it, the whole per-file transaction
rolls back, and the remaining valid entry of the same file is NOT inserted
(zero target rows, outcome raised), contradicting the claim that the file's
ingestion does not abort. -/
theorem claim6_counterexample :
    (process_file emptyDB emptyDB wrongTypeFile 1 false).outcome = .raised ∧
    (process_file emptyDB emptyDB wrongTypeFile 1 false).working.targets.length = 0 ∧
    (process_file emptyDB emptyDB wrongTypeFile 1 false).committed.targets.length = 0 :=
  ⟨rfl, rfl, rfl⟩

/-- C6 (amended): only entries that are mappings are isolated — a mapping
target entry whose host is missing or unusable is dropped individually while
the remaining valid entries of the file are still inserted (a file with 10
valid target entries and 2 mapping entries missing the host inserts exactly
10 target rows and does not abort), and extraction never raises on a list of
host-safe mapping entries; but an entry that is not a mapping raises and
aborts the whole file, and a mapping randoms entry with missing fields is
inserted as an all-null tuple (full arity, so `_validate_records` keeps it)
rather than dropped. -/
theorem claim6_mapping_entries_isolated :
    (∀ (fid : Nat) (es : List J) (seen : List String),
      (∀ e ∈ es, entryHostSafe e = true) →
      ∃ recs dups, extractTargets fid seen es = .ok (recs, dups)) ∧
    (process_file emptyDB emptyDB tenPlusTwoFile 1 false).outcome = .ok ∧
    (process_file emptyDB emptyDB tenPlusTwoFile 1 false).working.targets.length = 10 ∧
    buildRandomRecord 1 (J.obj []) =
      .ok [DBVal.int 1, .null, .null, .null, .null, .null, .null, .null] ∧
    validate_records [[DBVal.int 1, .null, .null, .null, .null, .null, .null, .null]] 8 =
      [[DBVal.int 1, .null, .null, .null, .null, .null, .null, .null]] := by
  refine ⟨?_, by rfl, by rfl, by rfl, by rfl⟩
  intro fid es seen hsafe
  exact extractTargets_total fid es seen hsafe

/-- Witness for C6 (amended): extraction succeeds on the 10-plus-2 entry
list. -/
theorem claim6_witness :
    ∃ recs dups, extractTargets 1 []
      [J.obj [("host", J.str "h0.com")],
       J.obj [("host", J.str "h1.com")],
       J.obj [("host", J.str "h2.com")],
       J.obj [("host", J.str "h3.com")],
       J.obj [("host", J.str "h4.com")],
       J.obj [("host", J.str "h5.com")],
       J.obj [("host", J.str "h6.com")],
       J.obj [("host", J.str "h7.com")],
       J.obj [("host", J.str "h8.com")],
       J.obj [("host", J.str "h9.com")],
       J.obj [],
       J.obj [("port", J.num 80)]] = .ok (recs, dups) :=
  claim6_mapping_entries_isolated.1 1
    [J.obj [("host", J.str "h0.com")],
     J.obj [("host", J.str "h1.com")],
     J.obj [("host", J.str "h2.com")],
     J.obj [("host", J.str "h3.com")],
     J.obj [("host", J.str "h4.com")],
     J.obj [("host", J.str "h5.com")],
     J.obj [("host", J.str "h6.com")],
     J.obj [("host", J.str "h7.com")],
     J.obj [("host", J.str "h8.com")],
     J.obj [("host", J.str "h9.com")],
     J.obj [],
     J.obj [("port", J.num 80)]] []
    (by decide)

/-- Code point of a rendered digit. -/
theorem digitChar_toNat (n : Nat) (h : n < 10) : (digitChar n).toNat = 48 + n := by
  unfold digitChar
  interval_cases n <;> decide

/-- A rendered digit passes the digit test. -/
theorem digitChar_isDigit (n : Nat) (h : n < 10) : isDigitChar (digitChar n) = true := by
  unfold isDigitChar
  rw [digitChar_toNat n h]
  simp only [Bool.and_eq_true, decide_eq_true_eq]
  omega

/-- Reading back a rendered digit. -/
theorem digitVal_digitChar (n : Nat) (h : n < 10) : digitVal (digitChar n) = n := by
  unfold digitVal
  rw [digitChar_toNat n h]
  omega

/-- Bounds of a digit character. -/
theorem isDigit_bounds (c : Char) (h : isDigitChar c = true) :
    48 ≤ c.toNat ∧ c.toNat ≤ 57 := by
  unfold isDigitChar at h
  simp only [Bool.and_eq_true, decide_eq_true_eq] at h
  exact h

/-- Rendering the value of a digit character gives it back. -/
theorem digitChar_digitVal (c : Char) (h : isDigitChar c = true) :
    digitChar (digitVal c) = c := by
  obtain ⟨h1, h2⟩ := isDigit_bounds c h
  unfold digitChar digitVal
  have he : 48 + (c.toNat - 48) = c.toNat := by omega
  rw [he]
  exact Char.ofNat_toNat c

/-- A digit character has value below ten. -/
theorem digitVal_lt (c : Char) (h : isDigitChar c = true) : digitVal c < 10 := by
  obtain ⟨h1, h2⟩ := isDigit_bounds c h
  unfold digitVal
  omega

/-- A rendered digit is never the dash separator. -/
theorem digitChar_ne_dash (n : Nat) (h : n < 10) : (digitChar n == Char.ofNat 45) = false := by
  unfold digitChar
  interval_cases n <;> decide

/-- Rendering a two-digit read gives back the two characters. -/
theorem render2_read2 (a b : Char) (ha : isDigitChar a = true) (hb : isDigitChar b = true) :
    render2 (read2 a b) = [a, b] := by
  have hva := digitVal_lt a ha
  have hvb := digitVal_lt b hb
  unfold render2 read2
  have h1 : (10 * digitVal a + digitVal b) / 10 = digitVal a := by omega
  have h2 : (10 * digitVal a + digitVal b) % 10 = digitVal b := by omega
  rw [h1, h2, digitChar_digitVal a ha, digitChar_digitVal b hb]

/-- Rendering a four-digit read gives back the four characters. -/
theorem render4_read4 (a b c d : Char) (ha : isDigitChar a = true)
    (hb : isDigitChar b = true) (hc : isDigitChar c = true) (hd : isDigitChar d = true) :
    render4 (read4 a b c d) = [a, b, c, d] := by
  have hva := digitVal_lt a ha
  have hvb := digitVal_lt b hb
  have hvc := digitVal_lt c hc
  have hvd := digitVal_lt d hd
  unfold render4 read4
  have h1 : (1000 * digitVal a + 100 * digitVal b + 10 * digitVal c + digitVal d) / 1000 =
      digitVal a := by omega
  have h2 : (1000 * digitVal a + 100 * digitVal b + 10 * digitVal c + digitVal d) / 100 % 10 =
      digitVal b := by omega
  have h3 : (1000 * digitVal a + 100 * digitVal b + 10 * digitVal c + digitVal d) / 10 % 10 =
      digitVal c := by omega
  have h4 : (1000 * digitVal a + 100 * digitVal b + 10 * digitVal c + digitVal d) % 10 =
      digitVal d := by omega
  rw [h1, h2, h3, h4, digitChar_digitVal a ha, digitChar_digitVal b hb,
    digitChar_digitVal c hc, digitChar_digitVal d hd]

/-- Reading a rendered two-digit value gives it back. -/
theorem read2_render2 (n : Nat) (h : n < 100) :
    read2 (digitChar (n / 10)) (digitChar (n % 10)) = n := by
  unfold read2
  rw [digitVal_digitChar _ (by omega), digitVal_digitChar _ (by omega)]
  omega

/-- Reading a rendered four-digit value gives it back. -/
theorem read4_render4 (n : Nat) (h : n < 10000) :
    read4 (digitChar (n / 1000)) (digitChar (n / 100 % 10)) (digitChar (n / 10 % 10))
      (digitChar (n % 10)) = n := by
  unfold read4
  rw [digitVal_digitChar _ (by omega), digitVal_digitChar _ (by omega),
    digitVal_digitChar _ (by omega), digitVal_digitChar _ (by omega)]
  omega

/-- Every month length accepted by the constructor is at most 31. -/
theorem daysInMonth_le (y m : Nat) : daysInMonth y m ≤ 31 := by
  unfold daysInMonth
  split
  · split <;> omega
  · split <;> omega

/-- Field bounds of a valid timestamp. -/
theorem validDateTime_le (dt : DateTime) (h : validDateTime dt = true) :
    1 ≤ dt.year ∧ dt.year ≤ 9999 ∧ 1 ≤ dt.month ∧ dt.month ≤ 12 ∧
    1 ≤ dt.day ∧ dt.day ≤ 31 ∧ dt.hour ≤ 23 ∧ dt.minute ≤ 59 ∧ dt.second ≤ 59 := by
  unfold validDateTime at h
  simp only [Bool.and_eq_true, decide_eq_true_eq] at h
  have hm := daysInMonth_le dt.year dt.month
  omega

/-- The canonical `DD-MM-YYYY_HH-MM-SS` rendering is 19 characters long. -/
theorem renderDMY_length (dt : DateTime) : (renderDMY dt).length = 19 := rfl

/-- The canonical `YYYY-MM-DD_HH-MM-SS` rendering is 19 characters long. -/
theorem renderYMD_length (dt : DateTime) : (renderYMD dt).length = 19 := rfl

/-- Soundness of the `%d-%m-%Y` embedding: a successful parse means the token
is the canonical rendering of a valid timestamp. -/
theorem strptimeDMY_some (cs : List Char) (dt : DateTime)
    (h : strptimeDMY cs = some dt) :
    cs = renderDMY dt ∧ validDateTime dt = true := by
  cases cs with
  | nil => exact Option.noConfusion h
  | cons a1 cs =>
    cases cs with
    | nil => exact Option.noConfusion h
    | cons a2 cs =>
      cases cs with
      | nil => exact Option.noConfusion h
      | cons s1 cs =>
        cases cs with
        | nil => exact Option.noConfusion h
        | cons b1 cs =>
          cases cs with
          | nil => exact Option.noConfusion h
          | cons b2 cs =>
            cases cs with
            | nil => exact Option.noConfusion h
            | cons s2 cs =>
              cases cs with
              | nil => exact Option.noConfusion h
              | cons c1 cs =>
                cases cs with
                | nil => exact Option.noConfusion h
                | cons c2 cs =>
                  cases cs with
                  | nil => exact Option.noConfusion h
                  | cons c3 cs =>
                    cases cs with
                    | nil => exact Option.noConfusion h
                    | cons c4 cs =>
                      cases cs with
                      | nil => exact Option.noConfusion h
                      | cons u1 cs =>
                        cases cs with
                        | nil => exact Option.noConfusion h
                        | cons d1 cs =>
                          cases cs with
                          | nil => exact Option.noConfusion h
                          | cons d2 cs =>
                            cases cs with
                            | nil => exact Option.noConfusion h
                            | cons s3 cs =>
                              cases cs with
                              | nil => exact Option.noConfusion h
                              | cons e1 cs =>
                                cases cs with
                                | nil => exact Option.noConfusion h
                                | cons e2 cs =>
                                  cases cs with
                                  | nil => exact Option.noConfusion h
                                  | cons s4 cs =>
                                    cases cs with
                                    | nil => exact Option.noConfusion h
                                    | cons f1 cs =>
                                      cases cs with
                                      | nil => exact Option.noConfusion h
                                      | cons f2 cs =>
                                        cases cs with
                                        | cons g1 cs => exact Option.noConfusion h
                                        | nil =>
                                          have h2 : (if isDigitChar a1 && isDigitChar a2 && s1 == '-' && isDigitChar b1 && isDigitChar b2 && s2 == '-' && isDigitChar c1 && isDigitChar c2 && isDigitChar c3 && isDigitChar c4 && u1 == '_' && isDigitChar d1 && isDigitChar d2 && s3 == '-' && isDigitChar e1 && isDigitChar e2 && s4 == '-' && isDigitChar f1 && isDigitChar f2 then
                                              (if validDateTime (⟨read4 c1 c2 c3 c4, read2 b1 b2, read2 a1 a2, read2 d1 d2, read2 e1 e2, read2 f1 f2⟩ : DateTime) then
                                                some (⟨read4 c1 c2 c3 c4, read2 b1 b2, read2 a1 a2, read2 d1 d2, read2 e1 e2, read2 f1 f2⟩ : DateTime)
                                               else none)
                                            else none) = some dt := h
                                          cases hcond : (isDigitChar a1 && isDigitChar a2 && s1 == '-' && isDigitChar b1 && isDigitChar b2 && s2 == '-' && isDigitChar c1 && isDigitChar c2 && isDigitChar c3 && isDigitChar c4 && u1 == '_' && isDigitChar d1 && isDigitChar d2 && s3 == '-' && isDigitChar e1 && isDigitChar e2 && s4 == '-' && isDigitChar f1 && isDigitChar f2) with
                                          | false =>
                                            rw [hcond, if_neg Bool.false_ne_true] at h2
                                            exact Option.noConfusion h2
                                          | true =>
                                            rw [hcond, if_pos rfl] at h2
                                            cases hvalid : validDateTime (⟨read4 c1 c2 c3 c4, read2 b1 b2, read2 a1 a2, read2 d1 d2, read2 e1 e2, read2 f1 f2⟩ : DateTime) with
                                            | false =>
                                              rw [hvalid, if_neg Bool.false_ne_true] at h2
                                              exact Option.noConfusion h2
                                            | true =>
                                              rw [hvalid, if_pos rfl] at h2
                                              have hdt : (⟨read4 c1 c2 c3 c4, read2 b1 b2, read2 a1 a2, read2 d1 d2, read2 e1 e2, read2 f1 f2⟩ : DateTime) = dt := Option.some.inj h2
                                              simp only [Bool.and_eq_true] at hcond
                                              obtain ⟨⟨⟨⟨⟨⟨⟨⟨⟨⟨⟨⟨⟨⟨⟨⟨⟨⟨ha1, ha2⟩, hs1⟩, hb1⟩, hb2⟩, hs2⟩, hc1⟩, hc2⟩, hc3⟩, hc4⟩, hu1⟩, hd1⟩, hd2⟩, hs3⟩, he1⟩, he2⟩, hs4⟩, hf1⟩, hf2⟩ := hcond
                                              have hs1e : s1 = '-' := by simpa using hs1
                                              have hs2e : s2 = '-' := by simpa using hs2
                                              have hu1e : u1 = '_' := by simpa using hu1
                                              have hs3e : s3 = '-' := by simpa using hs3
                                              have hs4e : s4 = '-' := by simpa using hs4
                                              subst hs1e
                                              subst hs2e
                                              subst hu1e
                                              subst hs3e
                                              subst hs4e
                                              constructor
                                              · rw [← hdt]
                                                unfold renderDMY
                                                rw [render2_read2 a1 a2 ha1 ha2, render2_read2 b1 b2 hb1 hb2,
                                                  render4_read4 c1 c2 c3 c4 hc1 hc2 hc3 hc4, render2_read2 d1 d2 hd1 hd2,
                                                  render2_read2 e1 e2 he1 he2, render2_read2 f1 f2 hf1 hf2]
                                                rfl
                                              · rw [← hdt]
                                                exact hvalid

/-- Soundness of the `%Y-%m-%d` embedding: a successful parse means the token
is the canonical rendering of a valid timestamp. -/
theorem strptimeYMD_some (cs : List Char) (dt : DateTime)
    (h : strptimeYMD cs = some dt) :
    cs = renderYMD dt ∧ validDateTime dt = true := by
  cases cs with
  | nil => exact Option.noConfusion h
  | cons c1 cs =>
    cases cs with
    | nil => exact Option.noConfusion h
    | cons c2 cs =>
      cases cs with
      | nil => exact Option.noConfusion h
      | cons c3 cs =>
        cases cs with
        | nil => exact Option.noConfusion h
        | cons c4 cs =>
          cases cs with
          | nil => exact Option.noConfusion h
          | cons s1 cs =>
            cases cs with
            | nil => exact Option.noConfusion h
            | cons b1 cs =>
              cases cs with
              | nil => exact Option.noConfusion h
              | cons b2 cs =>
                cases cs with
                | nil => exact Option.noConfusion h
                | cons s2 cs =>
                  cases cs with
                  | nil => exact Option.noConfusion h
                  | cons a1 cs =>
                    cases cs with
                    | nil => exact Option.noConfusion h
                    | cons a2 cs =>
                      cases cs with
                      | nil => exact Option.noConfusion h
                      | cons u1 cs =>
                        cases cs with
                        | nil => exact Option.noConfusion h
                        | cons d1 cs =>
                          cases cs with
                          | nil => exact Option.noConfusion h
                          | cons d2 cs =>
                            cases cs with
                            | nil => exact Option.noConfusion h
                            | cons s3 cs =>
                              cases cs with
                              | nil => exact Option.noConfusion h
                              | cons e1 cs =>
                                cases cs with
                                | nil => exact Option.noConfusion h
                                | cons e2 cs =>
                                  cases cs with
                                  | nil => exact Option.noConfusion h
                                  | cons s4 cs =>
                                    cases cs with
                                    | nil => exact Option.noConfusion h
                                    | cons f1 cs =>
                                      cases cs with
                                      | nil => exact Option.noConfusion h
                                      | cons f2 cs =>
                                        cases cs with
                                        | cons g1 cs => exact Option.noConfusion h
                                        | nil =>
                                          have h2 : (if isDigitChar c1 && isDigitChar c2 && isDigitChar c3 && isDigitChar c4 && s1 == '-' && isDigitChar b1 && isDigitChar b2 && s2 == '-' && isDigitChar a1 && isDigitChar a2 && u1 == '_' && isDigitChar d1 && isDigitChar d2 && s3 == '-' && isDigitChar e1 && isDigitChar e2 && s4 == '-' && isDigitChar f1 && isDigitChar f2 then
                                              (if validDateTime (⟨read4 c1 c2 c3 c4, read2 b1 b2, read2 a1 a2, read2 d1 d2, read2 e1 e2, read2 f1 f2⟩ : DateTime) then
                                                some (⟨read4 c1 c2 c3 c4, read2 b1 b2, read2 a1 a2, read2 d1 d2, read2 e1 e2, read2 f1 f2⟩ : DateTime)
                                               else none)
                                            else none) = some dt := h
                                          cases hcond : (isDigitChar c1 && isDigitChar c2 && isDigitChar c3 && isDigitChar c4 && s1 == '-' && isDigitChar b1 && isDigitChar b2 && s2 == '-' && isDigitChar a1 && isDigitChar a2 && u1 == '_' && isDigitChar d1 && isDigitChar d2 && s3 == '-' && isDigitChar e1 && isDigitChar e2 && s4 == '-' && isDigitChar f1 && isDigitChar f2) with
                                          | false =>
                                            rw [hcond, if_neg Bool.false_ne_true] at h2
                                            exact Option.noConfusion h2
                                          | true =>
                                            rw [hcond, if_pos rfl] at h2
                                            cases hvalid : validDateTime (⟨read4 c1 c2 c3 c4, read2 b1 b2, read2 a1 a2, read2 d1 d2, read2 e1 e2, read2 f1 f2⟩ : DateTime) with
                                            | false =>
                                              rw [hvalid, if_neg Bool.false_ne_true] at h2
                                              exact Option.noConfusion h2
                                            | true =>
                                              rw [hvalid, if_pos rfl] at h2
                                              have hdt : (⟨read4 c1 c2 c3 c4, read2 b1 b2, read2 a1 a2, read2 d1 d2, read2 e1 e2, read2 f1 f2⟩ : DateTime) = dt := Option.some.inj h2
                                              simp only [Bool.and_eq_true] at hcond
                                              obtain ⟨⟨⟨⟨⟨⟨⟨⟨⟨⟨⟨⟨⟨⟨⟨⟨⟨⟨hc1, hc2⟩, hc3⟩, hc4⟩, hs1⟩, hb1⟩, hb2⟩, hs2⟩, ha1⟩, ha2⟩, hu1⟩, hd1⟩, hd2⟩, hs3⟩, he1⟩, he2⟩, hs4⟩, hf1⟩, hf2⟩ := hcond
                                              have hs1e : s1 = '-' := by simpa using hs1
                                              have hs2e : s2 = '-' := by simpa using hs2
                                              have hu1e : u1 = '_' := by simpa using hu1
                                              have hs3e : s3 = '-' := by simpa using hs3
                                              have hs4e : s4 = '-' := by simpa using hs4
                                              subst hs1e
                                              subst hs2e
                                              subst hu1e
                                              subst hs3e
                                              subst hs4e
                                              constructor
                                              · rw [← hdt]
                                                unfold renderYMD
                                                rw [render4_read4 c1 c2 c3 c4 hc1 hc2 hc3 hc4, render2_read2 b1 b2 hb1 hb2,
                                                  render2_read2 a1 a2 ha1 ha2, render2_read2 d1 d2 hd1 hd2,
                                                  render2_read2 e1 e2 he1 he2, render2_read2 f1 f2 hf1 hf2]
                                                rfl
                                              · rw [← hdt]
                                                exact hvalid

/-- A valid timestamp's canonical `DD-MM-YYYY` rendering passes the first
regex shape. -/
theorem shapeDMY_render (dt : DateTime) (hv : validDateTime dt = true) :
    shapeDMY (renderDMY dt) = true := by
  obtain ⟨y, mo, d, hh, mi, s⟩ := dt
  have hb := validDateTime_le ⟨y, mo, d, hh, mi, s⟩ hv
  simp only at hb
  obtain ⟨h1, h2, h3, h4, h5, h6, h7, h8, h9⟩ := hb
  have e0 : isDigitChar (digitChar (d / 10)) = true := digitChar_isDigit _ (by omega)
  have e1 : isDigitChar (digitChar (d % 10)) = true := digitChar_isDigit _ (by omega)
  have e2 : isDigitChar (digitChar (mo / 10)) = true := digitChar_isDigit _ (by omega)
  have e3 : isDigitChar (digitChar (mo % 10)) = true := digitChar_isDigit _ (by omega)
  have e4 : isDigitChar (digitChar (y / 1000)) = true := digitChar_isDigit _ (by omega)
  have e5 : isDigitChar (digitChar (y / 100 % 10)) = true := digitChar_isDigit _ (by omega)
  have e6 : isDigitChar (digitChar (y / 10 % 10)) = true := digitChar_isDigit _ (by omega)
  have e7 : isDigitChar (digitChar (y % 10)) = true := digitChar_isDigit _ (by omega)
  have e8 : isDigitChar (digitChar (hh / 10)) = true := digitChar_isDigit _ (by omega)
  have e9 : isDigitChar (digitChar (hh % 10)) = true := digitChar_isDigit _ (by omega)
  have e10 : isDigitChar (digitChar (mi / 10)) = true := digitChar_isDigit _ (by omega)
  have e11 : isDigitChar (digitChar (mi % 10)) = true := digitChar_isDigit _ (by omega)
  have e12 : isDigitChar (digitChar (s / 10)) = true := digitChar_isDigit _ (by omega)
  have e13 : isDigitChar (digitChar (s % 10)) = true := digitChar_isDigit _ (by omega)
  simp [renderDMY, render2, render4, shapeDMY, e0, e1, e2, e3, e4, e5, e6, e7, e8, e9, e10, e11, e12, e13]

/-- A valid timestamp's canonical `YYYY-MM-DD` rendering passes the second
regex shape. -/
theorem shapeYMD_render (dt : DateTime) (hv : validDateTime dt = true) :
    shapeYMD (renderYMD dt) = true := by
  obtain ⟨y, mo, d, hh, mi, s⟩ := dt
  have hb := validDateTime_le ⟨y, mo, d, hh, mi, s⟩ hv
  simp only at hb
  obtain ⟨h1, h2, h3, h4, h5, h6, h7, h8, h9⟩ := hb
  have e0 : isDigitChar (digitChar (d / 10)) = true := digitChar_isDigit _ (by omega)
  have e1 : isDigitChar (digitChar (d % 10)) = true := digitChar_isDigit _ (by omega)
  have e2 : isDigitChar (digitChar (mo / 10)) = true := digitChar_isDigit _ (by omega)
  have e3 : isDigitChar (digitChar (mo % 10)) = true := digitChar_isDigit _ (by omega)
  have e4 : isDigitChar (digitChar (y / 1000)) = true := digitChar_isDigit _ (by omega)
  have e5 : isDigitChar (digitChar (y / 100 % 10)) = true := digitChar_isDigit _ (by omega)
  have e6 : isDigitChar (digitChar (y / 10 % 10)) = true := digitChar_isDigit _ (by omega)
  have e7 : isDigitChar (digitChar (y % 10)) = true := digitChar_isDigit _ (by omega)
  have e8 : isDigitChar (digitChar (hh / 10)) = true := digitChar_isDigit _ (by omega)
  have e9 : isDigitChar (digitChar (hh % 10)) = true := digitChar_isDigit _ (by omega)
  have e10 : isDigitChar (digitChar (mi / 10)) = true := digitChar_isDigit _ (by omega)
  have e11 : isDigitChar (digitChar (mi % 10)) = true := digitChar_isDigit _ (by omega)
  have e12 : isDigitChar (digitChar (s / 10)) = true := digitChar_isDigit _ (by omega)
  have e13 : isDigitChar (digitChar (s % 10)) = true := digitChar_isDigit _ (by omega)
  simp [renderYMD, render2, render4, shapeYMD, e0, e1, e2, e3, e4, e5, e6, e7, e8, e9, e10, e11, e12, e13]

/-- The first-format strptime accepts the canonical `DD-MM-YYYY` rendering of
a valid timestamp and returns that timestamp. -/
theorem strptimeDMY_render (dt : DateTime) (hv : validDateTime dt = true) :
    strptimeDMY (renderDMY dt) = some dt := by
  obtain ⟨y, mo, d, hh, mi, s⟩ := dt
  have hb := validDateTime_le ⟨y, mo, d, hh, mi, s⟩ hv
  simp only at hb
  obtain ⟨h1, h2, h3, h4, h5, h6, h7, h8, h9⟩ := hb
  have e0 : isDigitChar (digitChar (d / 10)) = true := digitChar_isDigit _ (by omega)
  have e1 : isDigitChar (digitChar (d % 10)) = true := digitChar_isDigit _ (by omega)
  have e2 : isDigitChar (digitChar (mo / 10)) = true := digitChar_isDigit _ (by omega)
  have e3 : isDigitChar (digitChar (mo % 10)) = true := digitChar_isDigit _ (by omega)
  have e4 : isDigitChar (digitChar (y / 1000)) = true := digitChar_isDigit _ (by omega)
  have e5 : isDigitChar (digitChar (y / 100 % 10)) = true := digitChar_isDigit _ (by omega)
  have e6 : isDigitChar (digitChar (y / 10 % 10)) = true := digitChar_isDigit _ (by omega)
  have e7 : isDigitChar (digitChar (y % 10)) = true := digitChar_isDigit _ (by omega)
  have e8 : isDigitChar (digitChar (hh / 10)) = true := digitChar_isDigit _ (by omega)
  have e9 : isDigitChar (digitChar (hh % 10)) = true := digitChar_isDigit _ (by omega)
  have e10 : isDigitChar (digitChar (mi / 10)) = true := digitChar_isDigit _ (by omega)
  have e11 : isDigitChar (digitChar (mi % 10)) = true := digitChar_isDigit _ (by omega)
  have e12 : isDigitChar (digitChar (s / 10)) = true := digitChar_isDigit _ (by omega)
  have e13 : isDigitChar (digitChar (s % 10)) = true := digitChar_isDigit _ (by omega)
  have r1 : read2 (digitChar (d / 10)) (digitChar (d % 10)) = d := read2_render2 d (by omega)
  have r2 : read2 (digitChar (mo / 10)) (digitChar (mo % 10)) = mo := read2_render2 mo (by omega)
  have r3 : read4 (digitChar (y / 1000)) (digitChar (y / 100 % 10)) (digitChar (y / 10 % 10)) (digitChar (y % 10)) = y := read4_render4 y (by omega)
  have r4 : read2 (digitChar (hh / 10)) (digitChar (hh % 10)) = hh := read2_render2 hh (by omega)
  have r5 : read2 (digitChar (mi / 10)) (digitChar (mi % 10)) = mi := read2_render2 mi (by omega)
  have r6 : read2 (digitChar (s / 10)) (digitChar (s % 10)) = s := read2_render2 s (by omega)
  simp [renderDMY, render2, render4, strptimeDMY, e0, e1, e2, e3, e4, e5, e6, e7, e8, e9, e10, e11, e12, e13, r1, r2, r3, r4, r5, r6, hv]

/-- The second-format strptime accepts the canonical `YYYY-MM-DD` rendering
of a valid timestamp and returns that timestamp. -/
theorem strptimeYMD_render (dt : DateTime) (hv : validDateTime dt = true) :
    strptimeYMD (renderYMD dt) = some dt := by
  obtain ⟨y, mo, d, hh, mi, s⟩ := dt
  have hb := validDateTime_le ⟨y, mo, d, hh, mi, s⟩ hv
  simp only at hb
  obtain ⟨h1, h2, h3, h4, h5, h6, h7, h8, h9⟩ := hb
  have e0 : isDigitChar (digitChar (d / 10)) = true := digitChar_isDigit _ (by omega)
  have e1 : isDigitChar (digitChar (d % 10)) = true := digitChar_isDigit _ (by omega)
  have e2 : isDigitChar (digitChar (mo / 10)) = true := digitChar_isDigit _ (by omega)
  have e3 : isDigitChar (digitChar (mo % 10)) = true := digitChar_isDigit _ (by omega)
  have e4 : isDigitChar (digitChar (y / 1000)) = true := digitChar_isDigit _ (by omega)
  have e5 : isDigitChar (digitChar (y / 100 % 10)) = true := digitChar_isDigit _ (by omega)
  have e6 : isDigitChar (digitChar (y / 10 % 10)) = true := digitChar_isDigit _ (by omega)
  have e7 : isDigitChar (digitChar (y % 10)) = true := digitChar_isDigit _ (by omega)
  have e8 : isDigitChar (digitChar (hh / 10)) = true := digitChar_isDigit _ (by omega)
  have e9 : isDigitChar (digitChar (hh % 10)) = true := digitChar_isDigit _ (by omega)
  have e10 : isDigitChar (digitChar (mi / 10)) = true := digitChar_isDigit _ (by omega)
  have e11 : isDigitChar (digitChar (mi % 10)) = true := digitChar_isDigit _ (by omega)
  have e12 : isDigitChar (digitChar (s / 10)) = true := digitChar_isDigit _ (by omega)
  have e13 : isDigitChar (digitChar (s % 10)) = true := digitChar_isDigit _ (by omega)
  have r1 : read2 (digitChar (d / 10)) (digitChar (d % 10)) = d := read2_render2 d (by omega)
  have r2 : read2 (digitChar (mo / 10)) (digitChar (mo % 10)) = mo := read2_render2 mo (by omega)
  have r3 : read4 (digitChar (y / 1000)) (digitChar (y / 100 % 10)) (digitChar (y / 10 % 10)) (digitChar (y % 10)) = y := read4_render4 y (by omega)
  have r4 : read2 (digitChar (hh / 10)) (digitChar (hh % 10)) = hh := read2_render2 hh (by omega)
  have r5 : read2 (digitChar (mi / 10)) (digitChar (mi % 10)) = mi := read2_render2 mi (by omega)
  have r6 : read2 (digitChar (s / 10)) (digitChar (s % 10)) = s := read2_render2 s (by omega)
  simp [renderYMD, render2, render4, strptimeYMD, e0, e1, e2, e3, e4, e5, e6, e7, e8, e9, e10, e11, e12, e13, r1, r2, r3, r4, r5, r6, hv]

/-- The first-format strptime rejects a `YYYY-MM-DD` token: its third
character is a year digit where `%d-%m-%Y` demands the dash. -/
theorem strptimeDMY_renderYMD (dt : DateTime) (hv : validDateTime dt = true) :
    strptimeDMY (renderYMD dt) = none := by
  obtain ⟨y, mo, d, hh, mi, s⟩ := dt
  have hb := validDateTime_le ⟨y, mo, d, hh, mi, s⟩ hv
  simp only at hb
  obtain ⟨h1, h2, h3, h4, h5, h6, h7, h8, h9⟩ := hb
  have hdash : (digitChar (y / 10 % 10) == Char.ofNat 45) = false :=
    digitChar_ne_dash _ (by omega)
  simp [renderYMD, render2, render4, strptimeDMY, hdash]

/-- Soundness of the whole extractor: a parsed timestamp is valid and the
filename starts with its canonical token in one of the two formats. -/
theorem parse_some_characterize (s : String) (dt : DateTime)
    (h : parse_timestamp_from_filename s = some dt) :
    validDateTime dt = true ∧
    ((∃ rest, s.data = renderDMY dt ++ rest) ∨ (∃ rest, s.data = renderYMD dt ++ rest)) := by
  unfold parse_timestamp_from_filename at h
  cases htok : tsToken s with
  | none =>
    rw [htok] at h
    exact Option.noConfusion h
  | some cs =>
    rw [htok] at h
    have h2 : (match strptimeDMY cs with
      | some dt0 => some dt0
      | none => strptimeYMD cs) = some dt := h
    have hcs : cs = s.data.take 19 := by
      unfold tsToken at htok
      split at htok
      · exact (Option.some.inj htok).symm
      · exact Option.noConfusion htok
    cases hdmy : strptimeDMY cs with
    | some dt2 =>
      rw [hdmy] at h2
      have h3 : (some dt2 : Option DateTime) = some dt := h2
      have hdt : dt2 = dt := Option.some.inj h3
      subst hdt
      obtain ⟨hcseq, hvalid⟩ := strptimeDMY_some cs dt2 hdmy
      refine ⟨hvalid, Or.inl ⟨s.data.drop 19, ?_⟩⟩
      calc s.data = s.data.take 19 ++ s.data.drop 19 := (List.take_append_drop _ _).symm
        _ = renderDMY dt2 ++ s.data.drop 19 := by rw [← hcs, hcseq]
    | none =>
      rw [hdmy] at h2
      have h3 : strptimeYMD cs = some dt := h2
      obtain ⟨hcseq, hvalid⟩ := strptimeYMD_some cs dt h3
      refine ⟨hvalid, Or.inr ⟨s.data.drop 19, ?_⟩⟩
      calc s.data = s.data.take 19 ++ s.data.drop 19 := (List.take_append_drop _ _).symm
        _ = renderYMD dt ++ s.data.drop 19 := by rw [← hcs, hcseq]

/-- Completeness of the whole extractor: a filename starting with the
canonical token of a valid timestamp, in either format, parses to exactly
that timestamp. -/
theorem parse_of_token (s : String) (dt : DateTime) (hv : validDateTime dt = true)
    (hdec : (∃ rest, s.data = renderDMY dt ++ rest) ∨
      (∃ rest, s.data = renderYMD dt ++ rest)) :
    parse_timestamp_from_filename s = some dt := by
  unfold parse_timestamp_from_filename tsToken
  rcases hdec with ⟨rest, hr⟩ | ⟨rest, hr⟩
  · have htake : s.data.take 19 = renderDMY dt := by
      rw [hr]
      exact List.take_left' (renderDMY_length dt)
    rw [htake, shapeDMY_render dt hv]
    simp only [Bool.true_or, eq_self_iff_true, if_true]
    show (match strptimeDMY (renderDMY dt) with
      | some dt0 => some dt0
      | none => strptimeYMD (renderDMY dt)) = some dt
    rw [strptimeDMY_render dt hv]
  · have htake : s.data.take 19 = renderYMD dt := by
      rw [hr]
      exact List.take_left' (renderYMD_length dt)
    rw [htake, shapeYMD_render dt hv]
    simp only [Bool.or_true, eq_self_iff_true, if_true]
    show (match strptimeDMY (renderYMD dt) with
      | some dt0 => some dt0
      | none => strptimeYMD (renderYMD dt)) = some dt
    rw [strptimeDMY_renderYMD dt hv]
    show strptimeYMD (renderYMD dt) = some dt
    exact strptimeYMD_render dt hv

/-- C8: the timestamp extractor returns a (UTC) timestamp exactly when the
filename starts with a token in one of the two fixed formats
`DD-MM-YYYY_HH-MM-SS` or `YYYY-MM-DD_HH-MM-SS` denoting a valid calendar
timestamp — the parsed value is that token's timestamp, and any other
filename yields no value rather than an error; in particular the two example
filenames both yield the same instant 2024-03-15 10:30:00. -/
theorem claim8_timestamp_characterization :
    (∀ (s : String) (dt : DateTime), parse_timestamp_from_filename s = some dt →
      validDateTime dt = true ∧
      ((∃ rest, s.data = renderDMY dt ++ rest) ∨
        (∃ rest, s.data = renderYMD dt ++ rest))) ∧
    (∀ (s : String) (dt : DateTime), validDateTime dt = true →
      ((∃ rest, s.data = renderDMY dt ++ rest) ∨
        (∃ rest, s.data = renderYMD dt ++ rest)) →
      parse_timestamp_from_filename s = some dt) ∧
    parse_timestamp_from_filename "15-03-2024_10-30-00_data.json" =
      some ⟨2024, 3, 15, 10, 30, 0⟩ ∧
    parse_timestamp_from_filename "2024-03-15_10-30-00_data.json" =
      some ⟨2024, 3, 15, 10, 30, 0⟩ :=
  ⟨parse_some_characterize, parse_of_token, rfl, rfl⟩

/-- Witness for C8 at a third concrete filename, through the completeness
direction. -/
theorem claim8_witness :
    parse_timestamp_from_filename "01-02-2003_04-05-06_x.json" =
      some ⟨2003, 2, 1, 4, 5, 6⟩ :=
  claim8_timestamp_characterization.2.1 "01-02-2003_04-05-06_x.json"
    ⟨2003, 2, 1, 4, 5, 6⟩ (by decide) (Or.inl ⟨"_x.json".data, by rfl⟩)

/-- Membership is preserved by sorted string insertion. -/
theorem mem_insertSortedStr (s x : String) (l : List String) :
    x ∈ insertSortedStr s l ↔ x = s ∨ x ∈ l := by
  induction l with
  | nil => simp [insertSortedStr]
  | cons y ys ih =>
    unfold insertSortedStr
    split
    · simp only [List.mem_cons]
    · simp only [List.mem_cons, ih]
      tauto

/-- Membership is preserved by the string sort. -/
theorem mem_sortStrings (x : String) (l : List String) :
    x ∈ sortStrings l ↔ x ∈ l := by
  induction l with
  | nil => simp [sortStrings]
  | cons y ys ih =>
    unfold sortStrings
    rw [mem_insertSortedStr, ih]
    simp [List.mem_cons]

/-- Deduplication never invents elements. -/
theorem mem_dedupStrGo :
    ∀ (l seen : List String) (x : String), x ∈ dedupStrGo seen l → x ∈ l := by
  intro l
  induction l with
  | nil => intro seen x h; cases h
  | cons y ys ih =>
    intro seen x h
    unfold dedupStrGo at h
    split at h
    · exact List.mem_cons_of_mem _ (ih seen x h)
    · rcases List.mem_cons.mp h with hxy | hxs
      · rw [hxy]; exact List.mem_cons_self _ _
      · exact List.mem_cons_of_mem _ (ih (y :: seen) x hxs)

/-- Every url the listing selection keeps comes from an href that does not
end, case-insensitively, in `last.json`; it is kept verbatim (absolute) or
resolved against the base (relative). -/
theorem check_for_json_origin (base : String) (hrefs : List String) (u : String)
    (hu : u ∈ check_for_json base hrefs) :
    ∃ href, href ∈ hrefs ∧
      endsWithL (lowerList href.data) ("last.json".data) = false ∧
      (u = href ∨ u = mkBaseUrl base ++ href) := by
  unfold check_for_json at hu
  rw [mem_sortStrings] at hu
  have hu2 := mem_dedupStrGo _ _ _ hu
  rcases List.mem_filterMap.mp hu2 with ⟨href, hmem, heq⟩
  refine ⟨href, hmem, ?_⟩
  split at heq
  · cases heq
  · rename_i hguard
    simp only [Bool.or_eq_true, not_or] at hguard
    have hsuffix : endsWithL (lowerList href.data) ("last.json".data) = false := by
      cases hcase : endsWithL (lowerList href.data) ("last.json".data) with
      | false => rfl
      | true => exact absurd hcase hguard.2
    refine ⟨hsuffix, ?_⟩
    split at heq
    · split at heq
      · exact Or.inl (Option.some.inj heq).symm
      · cases heq
    · split at heq
      · exact Or.inr (Option.some.inj heq).symm
      · cases heq

/-- C10: the fetcher's latest-alias exclusion is a case-insensitive suffix
test on the href, not an exact-name match: every url the listing selection
keeps originates from an href that does not end in `last.json` in any letter
case, and a timestamped file named `15-03-2024_10-30-00_last.json` is skipped
while a sibling snapshot is kept. -/
theorem claim10_suffix_exclusion :
    (∀ (base : String) (hrefs : List String) (u : String),
      u ∈ check_for_json base hrefs →
      ∃ href, href ∈ hrefs ∧
        endsWithL (lowerList href.data) ("last.json".data) = false ∧
        (u = href ∨ u = mkBaseUrl base ++ href)) ∧
    check_for_json "http://x/"
        ["15-03-2024_10-30-00_last.json", "2024-01-01_00-00-00_a.json"] =
      ["http://x/2024-01-01_00-00-00_a.json"] ∧
    endsWithL (lowerList ("15-03-2024_10-30-00_LAST.json".data)) ("last.json".data) =
      true :=
  ⟨check_for_json_origin, by rfl, by rfl⟩

/-- Witness for C10: the kept url of the concrete listing originates from the
non-alias href. -/
theorem claim10_witness :
    ∃ href, href ∈ ["15-03-2024_10-30-00_last.json", "2024-01-01_00-00-00_a.json"] ∧
      endsWithL (lowerList href.data) ("last.json".data) = false ∧
      ("http://x/2024-01-01_00-00-00_a.json" = href ∨
        "http://x/2024-01-01_00-00-00_a.json" = mkBaseUrl "http://x/" ++ href) :=
  claim10_suffix_exclusion.1 "http://x/"
    ["15-03-2024_10-30-00_last.json", "2024-01-01_00-00-00_a.json"]
    "http://x/2024-01-01_00-00-00_a.json" (by rw [claim10_suffix_exclusion.2.1]; exact List.mem_singleton.mpr rfl)

/-- A successful download never carries the reserved alias name, thanks to
the defensive exact-name skip in `_download_file`. -/
theorem download_file_not_lastjson (st : FetchState) (u : String) (name : String)
    (h : (download_file st u).2 = some name) :
    (lowerS name == "last.json") = false := by
  unfold download_file at h
  split at h
  · cases h
  · split at h
    · cases h
    · split at h
      · cases h
      · split at h
        · cases h
        · split at h
          · cases h
          · rename_i hguard _ _ _ _
            have hn : urlFilename u = name := Option.some.inj h
            rw [← hn]
            cases hcase : (lowerS (urlFilename u) == "last.json") with
            | false => rfl
            | true => exact absurd hcase hguard

/-- No name downloaded by a fetcher pass is the reserved alias. -/
theorem fetchFiles_not_lastjson :
    ∀ (us : List String) (st : FetchState) (name : String),
      name ∈ (fetchFiles st us).2 → (lowerS name == "last.json") = false := by
  intro us
  induction us with
  | nil => intro st name h; cases h
  | cons u rest ih =>
    intro st name h
    unfold fetchFiles at h
    rcases List.mem_append.mp h with h1 | h1
    · cases hd : (download_file st u).2 with
      | none => rw [hd] at h1; cases h1
      | some n =>
        rw [hd] at h1
        have hn : name = n := List.mem_singleton.mp h1
        rw [hn]
        exact download_file_not_lastjson st u n hd
    · exact ih _ name h1

/-- A `last.json` staged file is moved to processed by the per-file walk and
never left pending. -/
theorem runFiles_lastjson (f : StagedFile) (hf : (lowerS f.name == "last.json") = true)
    (now : Nat) (sf : Bool) :
    ∀ (fs : List StagedFile) (c w : DB),
      (f ∈ fs → f ∈ (runFiles c w now sf fs).2.2.2) ∧
      f ∉ (runFiles c w now sf fs).2.2.1 := by
  intro fs
  induction fs with
  | nil =>
    intro c w
    exact ⟨fun h => absurd h (List.not_mem_nil f), fun h => absurd h (List.not_mem_nil f)⟩
  | cons g rest ih =>
    intro c w
    simp only [runFiles]
    split
    · constructor
      · intro hmem
        rcases List.mem_cons.mp hmem with hfg | hmem
        · rw [hfg]; exact List.mem_cons_self _ _
        · exact List.mem_cons_of_mem _ ((ih _ _).1 hmem)
      · exact (ih _ _).2
    · rename_i hguard
      cases hout : (process_file c w g now sf).outcome <;> simp only [hout]
      · constructor
        · intro hmem
          rcases List.mem_cons.mp hmem with hfg | hmem
          · exact absurd (by rw [← hfg]; exact hf) hguard
          · exact List.mem_cons_of_mem _ ((ih _ _).1 hmem)
        · exact (ih _ _).2
      · constructor
        · intro hmem
          rcases List.mem_cons.mp hmem with hfg | hmem
          · exact absurd (by rw [← hfg]; exact hf) hguard
          · exact List.mem_cons_of_mem _ ((ih _ _).1 hmem)
        · exact (ih _ _).2
      · constructor
        · intro hmem
          rcases List.mem_cons.mp hmem with hfg | hmem
          · exact absurd (by rw [← hfg]; exact hf) hguard
          · exact List.mem_cons_of_mem _ ((ih _ _).1 hmem)
        · exact (ih _ _).2
      · constructor
        · intro hmem
          rcases List.mem_cons.mp hmem with hfg | hmem
          · exact absurd (by rw [← hfg]; exact hf) hguard
          · exact (ih _ _).1 hmem
        · intro hmem
          rcases List.mem_cons.mp hmem with hfg | hmem
          · exact absurd (by rw [← hfg]; exact hf) hguard
          · exact (ih _ _).2 hmem

/-- Every row in the upsert result either carries the upserted filename or
the filename of a pre-existing row. -/
theorem upsertFile_names (files : List FileRow) (n : Nat) (name : String)
    (ts : Option DateTime) (sha : String) (size now : Nat) :
    ∀ r ∈ (upsertFile files n name ts sha size now).1,
      r.filename = name ∨ ∃ r0 ∈ files, r.filename = r0.filename := by
  intro r hr
  unfold upsertFile at hr
  cases hf : files.find? (fun x => x.filename == name) with
  | some row =>
    rw [hf] at hr
    have hr2 : r ∈ files.map (updFile name ts sha size now) := hr
    rcases List.mem_map.mp hr2 with ⟨r0, hr0, hur⟩
    exact Or.inr ⟨r0, hr0, by rw [← hur, updFile_filename]⟩
  | none =>
    rw [hf] at hr
    have hr2 : r ∈ files ++ [⟨n, name, ts, sha, size, now⟩] := hr
    rcases List.mem_append.mp hr2 with hold | hnew
    · exact Or.inr ⟨r, hold, rfl⟩
    · left
      have he : r = ⟨n, name, ts, sha, size, now⟩ := List.mem_singleton.mp hnew
      rw [he]

/-- Filenames in both output states of `process_file` come from the processed
file or from the input states. -/
theorem process_file_names (c w : DB) (f : StagedFile) (now : Nat) (sf : Bool) :
    (∀ r ∈ (process_file c w f now sf).working.files,
      r.filename = f.name ∨ (∃ r0 ∈ w.files, r.filename = r0.filename) ∨
        (∃ r0 ∈ c.files, r.filename = r0.filename)) ∧
    (∀ r ∈ (process_file c w f now sf).committed.files,
      r.filename = f.name ∨ (∃ r0 ∈ w.files, r.filename = r0.filename) ∨
        (∃ r0 ∈ c.files, r.filename = r0.filename)) := by
  have hup : ∀ r ∈ (upsertStage w f now).1.files,
      r.filename = f.name ∨ ∃ r0 ∈ w.files, r.filename = r0.filename := by
    intro r hr
    have hr2 : r ∈ (upsertFile w.files w.nextId f.name
        (parse_timestamp_from_filename f.name) f.content.hash f.content.size now).1 := hr
    exact upsertFile_names _ _ _ _ _ _ _ r hr2
  have hw1 : ∀ r ∈ (upsertStage w f now).1.files,
      r.filename = f.name ∨ (∃ r0 ∈ w.files, r.filename = r0.filename) ∨
        (∃ r0 ∈ c.files, r.filename = r0.filename) :=
    fun r hr => (hup r hr).elim Or.inl (fun h => Or.inr (Or.inl h))
  have hcc : ∀ r ∈ c.files,
      r.filename = f.name ∨ (∃ r0 ∈ w.files, r.filename = r0.filename) ∨
        (∃ r0 ∈ c.files, r.filename = r0.filename) :=
    fun r hr => Or.inr (Or.inr ⟨r, hr, rfl⟩)
  simp only [process_file]
  split
  · exact ⟨hw1, hw1⟩
  · split
    · exact ⟨hw1, hcc⟩
    · split
      · exact ⟨hw1, hcc⟩
      · exact ⟨hw1, hcc⟩
      · split
        · exact ⟨hcc, hcc⟩
        · split
          · exact ⟨hcc, hcc⟩
          · split
            · exact ⟨hcc, hcc⟩
            · split
              · exact ⟨hcc, hcc⟩
              · split
                · exact ⟨hcc, hcc⟩
                · split
                  · exact ⟨hcc, hcc⟩
                  · exact ⟨hw1, hw1⟩

/-- The per-file walk never creates a files row named `last.json`: the alias
is relocated before `process_file` runs, and every other file upserts its own
(distinct) filename. -/
theorem runFiles_no_lastjson_row :
    ∀ (fs : List StagedFile) (c w : DB) (now : Nat) (sf : Bool),
      (∀ r ∈ c.files, r.filename ≠ "last.json") →
      (∀ r ∈ w.files, r.filename ≠ "last.json") →
      (∀ r ∈ (runFiles c w now sf fs).1.files, r.filename ≠ "last.json") ∧
      (∀ r ∈ (runFiles c w now sf fs).2.1.files, r.filename ≠ "last.json") := by
  intro fs
  induction fs with
  | nil => intro c w now sf hc hw; exact ⟨hc, hw⟩
  | cons g rest ih =>
    intro c w now sf hc hw
    simp only [runFiles]
    split
    · exact ih c w now sf hc hw
    · rename_i hguard
      have hgname : g.name ≠ "last.json" := by
        intro he
        apply hguard
        rw [he]
        decide
      have hnames := process_file_names c w g now sf
      have hw2 : ∀ r ∈ (process_file c w g now sf).working.files,
          r.filename ≠ "last.json" := by
        intro r hr
        rcases hnames.1 r hr with h | h | h
        · rw [h]; exact hgname
        · rcases h with ⟨r0, hr0, he⟩; rw [he]; exact hw r0 hr0
        · rcases h with ⟨r0, hr0, he⟩; rw [he]; exact hc r0 hr0
      have hc2 : ∀ r ∈ (process_file c w g now sf).committed.files,
          r.filename ≠ "last.json" := by
        intro r hr
        rcases hnames.2 r hr with h | h | h
        · rw [h]; exact hgname
        · rcases h with ⟨r0, hr0, he⟩; rw [he]; exact hw r0 hr0
        · rcases h with ⟨r0, hr0, he⟩; rw [he]; exact hc r0 hr0
      have hrec := ih (process_file c w g now sf).committed
        (process_file c w g now sf).working now sf hc2 hw2
      cases hout : (process_file c w g now sf).outcome <;> simp only [hout] <;>
        exact hrec

/-- C9: the reserved latest-alias filename `last.json` is never ingested —
the fetcher never downloads it from a listing (no downloaded name lowercases
to it), the ingestor relocates it from pending to processed without any
ingestion step, and a store holding no `last.json` files row still holds none
after a full polling cycle. -/
theorem claim9_lastjson_never_ingested :
    (∀ (base : String) (hrefs : List String) (st : FetchState),
      ∀ name ∈ (check_for_json_run base hrefs st).2, lowerS name ≠ "last.json") ∧
    (∀ (db : DB) (pending : List StagedFile) (now : Nat) (sf : Bool) (f : StagedFile),
      f ∈ pending → f.name = "last.json" →
      f ∈ (runCycle db pending now sf).2.2 ∧ f ∉ (runCycle db pending now sf).2.1) ∧
    (∀ (db : DB) (pending : List StagedFile) (now : Nat) (sf : Bool),
      (∀ r ∈ db.files, r.filename ≠ "last.json") →
      ∀ r ∈ (runCycle db pending now sf).1.files, r.filename ≠ "last.json") := by
  refine ⟨?_, ?_, ?_⟩
  · intro base hrefs st name hmem
    have hb := fetchFiles_not_lastjson (check_for_json base hrefs) st name hmem
    intro he
    rw [he] at hb
    exact absurd hb (by decide)
  · intro db pending now sf f hmem hname
    have hf : (lowerS f.name == "last.json") = true := by
      rw [hname]
      decide
    have hjson : endsWithS f.name ".json" = true := by
      rw [hname]
      decide
    constructor
    · simp only [runCycle]
      have hg : f ∈ sortByName (pending.filter (fun x => endsWithS x.name ".json")) := by
        rw [mem_sortByName]
        exact List.mem_filter.mpr ⟨hmem, hjson⟩
      exact (runFiles_lastjson f hf now sf _ db db).1 hg
    · simp only [runCycle]
      intro hcon
      rcases List.mem_append.mp hcon with h1 | h1
      · exact (runFiles_lastjson f hf now sf _ db db).2 h1
      · have h2 := (List.mem_filter.mp h1).2
        simp only [hjson] at h2
        cases h2
  · intro db pending now sf hdb
    simp only [runCycle]
    exact (runFiles_no_lastjson_row _ db db now sf hdb hdb).2

/-- Witness for C9: a pending `last.json` is relocated to processed by one
cycle. -/
theorem claim9_witness :
    lastJsonFile ∈ (runCycle emptyDB [lastJsonFile] 4 false).2.2 :=
  (claim9_lastjson_never_ingested.2.1 emptyDB [lastJsonFile] 4 false lastJsonFile
    (List.mem_singleton.mpr rfl) rfl).1

end Ddosia
